import Mathlib

/-!
Verification of the OpenCoder plan-execution engine and agent tool-use loop.

The TypeScript sources are shallowly embedded: classes with mutable state
become structures with explicit state passing, `async` operations whose
outcome is decided outside the core (the model provider, tool subprocesses,
the filesystem) become oracle functions passed as arguments, and thrown
exceptions become `Except` results.  Strings that are scanned character by
character are represented as `List Char`.
-/

namespace OpenCoder

/-! ## Plan data model (src/planning/types.ts) -/

/-- `TaskStatus` from types.ts: 'pending' | 'in_progress' | 'completed' | 'failed' | 'skipped'. -/
inductive TaskStatus where
  | pending
  | in_progress
  | completed
  | failed
  | skipped
deriving DecidableEq, Repr

/-- `Task` from types.ts. -/
structure Task where
  id : String
  title : String
  description : String
  status : TaskStatus
  dependencies : List String
  verifyCommand : Option String
  attempts : Nat
  maxAttempts : Nat
  error : Option String
deriving DecidableEq, Repr

/-- Plan status union from types.ts: 'draft' | 'approved' | 'in_progress' | 'completed' | 'failed'. -/
inductive PlanStatus where
  | draft
  | approved
  | in_progress
  | completed
  | failed
deriving DecidableEq, Repr

/-- The `verifyCommands` record of `Plan` from types.ts. -/
structure VerifyCommands where
  build : Option String
  test : Option String
  lint : Option String
deriving DecidableEq, Repr

/-- `Plan` from types.ts.  `createdAt` is kept as its serialized string form. -/
structure Plan where
  id : String
  goal : String
  createdAt : String
  status : PlanStatus
  summary : String
  tasks : List Task
  currentTaskIndex : Nat
  verifyCommands : VerifyCommands
  workingDirectory : String
deriving DecidableEq, Repr

/-- `PlanConfig` from types.ts. -/
structure PlanConfig where
  maxTaskAttempts : Nat
  runBuildAfterEachTask : Bool
  runTestAfterEachTask : Bool
  stopOnFirstFailure : Bool
deriving DecidableEq, Repr

/-- `DEFAULT_PLAN_CONFIG` from types.ts. -/
def DEFAULT_PLAN_CONFIG : PlanConfig :=
  { maxTaskAttempts := 3
    runBuildAfterEachTask := true
    runTestAfterEachTask := false
    stopOnFirstFailure := false }

/-- The mutable state of a `PlanManager` (plan-manager.ts): the owned plan and
the configuration fixed at construction. -/
structure PlanManager where
  plan : Option Plan
  config : PlanConfig
deriving DecidableEq, Repr

/-! ## PlanManager task selection (plan-manager.ts, getNextTask) -/

/-- The dependency check inside `getNextTask`:
`task.dependencies.every(depId => { const dep = this.plan!.tasks.find(t => t.id === depId); return dep?.status === 'completed'; })`.
A dependency id that resolves to no task counts as not completed. -/
def depsComplete (tasks : List Task) (t : Task) : Bool :=
  t.dependencies.all fun depId =>
    match tasks.find? (fun d => d.id == depId) with
    | some dep => dep.status == TaskStatus.completed
    | none => false

/-- A task is selectable by `getNextTask` when it is pending and all its
dependencies are completed. -/
def isReady (tasks : List Task) (t : Task) : Bool :=
  t.status == TaskStatus.pending && depsComplete tasks t

/-- The `for (let i = currentTaskIndex; i < tasks.length; i++)` scan of
`getNextTask`: `rest` is the suffix of the task list starting at index `i`. -/
def scanFrom (allTasks : List Task) : List Task → Nat → Option (Nat × Task)
  | [], _ => none
  | t :: ts, i => if isReady allTasks t then some (i, t) else scanFrom allTasks ts (i + 1)

/-- `getNextTask` from plan-manager.ts: scan from the stored cursor forward,
return the first pending task whose dependencies are all completed, updating
`currentTaskIndex` to its index; return none otherwise. -/
def PlanManager.getNextTask (m : PlanManager) : Option Task × PlanManager :=
  match m.plan with
  | none => (none, m)
  | some p =>
    match scanFrom p.tasks (p.tasks.drop p.currentTaskIndex) p.currentTaskIndex with
    | some (i, t) => (some t, { m with plan := some { p with currentTaskIndex := i } })
    | none => (none, m)

theorem scanFrom_some_spec (allTasks : List Task) :
    ∀ rest k, rest = allTasks.drop k →
      ∀ i t, scanFrom allTasks rest k = some (i, t) →
        k ≤ i ∧ allTasks.get? i = some t ∧ isReady allTasks t = true ∧
        ∀ j, k ≤ j → j < i → ∀ u, allTasks.get? j = some u → isReady allTasks u = false := by
  intro rest
  induction rest with
  | nil => intro k _ i t h; simp [scanFrom] at h
  | cons hd tl ih =>
    intro k hk i t h
    have hhd : allTasks.get? k = some hd := by
      have : (allTasks.drop k).get? 0 = some hd := by rw [← hk]; rfl
      simpa [List.get?_drop] using this
    have htl : tl = allTasks.drop (k + 1) := by
      have : (allTasks.drop k).tail = allTasks.drop (k + 1) := by
        simpa using (List.tail_drop allTasks k)
      rw [← hk] at this; simpa using this
    by_cases hr : isReady allTasks hd = true
    · simp [scanFrom, hr] at h
      obtain ⟨hi, ht⟩ := h
      subst hi; subst ht
      refine ⟨le_refl _, hhd, hr, ?_⟩
      intro j hj1 hj2
      exact absurd (lt_of_le_of_lt hj1 hj2) (lt_irrefl _)
    · have hr' : isReady allTasks hd = false := by
        cases hval : isReady allTasks hd
        · rfl
        · exact absurd hval hr
      simp [scanFrom, hr'] at h
      obtain ⟨h1, h2, h3, h4⟩ := ih (k + 1) htl i t h
      refine ⟨le_trans (Nat.le_succ k) h1, h2, h3, ?_⟩
      intro j hj1 hj2 u hu
      rcases Nat.eq_or_lt_of_le hj1 with hjk | hjk
      · rw [hjk] at hhd
        rw [hhd] at hu
        cases hu
        exact hr'
      · exact h4 j hjk hj2 u hu

theorem scanFrom_none_spec (allTasks : List Task) :
    ∀ rest k, rest = allTasks.drop k → scanFrom allTasks rest k = none →
      ∀ j, k ≤ j → ∀ u, allTasks.get? j = some u → isReady allTasks u = false := by
  intro rest
  induction rest with
  | nil =>
    intro k hk _ j hj u hu
    have hlen : allTasks.length ≤ k := by
      have := congrArg List.length hk
      simp at this
      omega
    have : allTasks.get? j = none := List.get?_eq_none.mpr (le_trans hlen hj)
    rw [this] at hu; cases hu
  | cons hd tl ih =>
    intro k hk h j hj u hu
    have hhd : allTasks.get? k = some hd := by
      have : (allTasks.drop k).get? 0 = some hd := by rw [← hk]; rfl
      simpa [List.get?_drop] using this
    have htl : tl = allTasks.drop (k + 1) := by
      have : (allTasks.drop k).tail = allTasks.drop (k + 1) := by
        simpa using (List.tail_drop allTasks k)
      rw [← hk] at this; simpa using this
    by_cases hr : isReady allTasks hd = true
    · simp [scanFrom, hr] at h
    · have hr' : isReady allTasks hd = false := by
        cases hval : isReady allTasks hd
        · rfl
        · exact absurd hval hr
      simp [scanFrom, hr'] at h
      rcases Nat.eq_or_lt_of_le hj with hjk | hjk
      · rw [hjk] at hhd
        rw [hhd] at hu
        cases hu
        exact hr'
      · exact ih (k + 1) htl h j hjk u hu

/-- If the task at the cursor is itself ready, `getNextTask` returns it and leaves the
manager state fixed. -/
theorem getNextTask_head_ready (m : PlanManager) (p : Plan) (t : Task) (rest : List Task)
    (hp : m.plan = some p)
    (hdrop : p.tasks.drop p.currentTaskIndex = t :: rest)
    (hready : isReady p.tasks t = true) :
    m.getNextTask = (some t, { m with plan := some p }) := by
  simp only [PlanManager.getNextTask, hp, hdrop, scanFrom, hready, if_true]

/-- C1: for every plan (in particular every plan whose dependencies form a DAG),
`getNextTask` scans the task list from the stored cursor index forward and returns the
first task with status pending all of whose dependency tasks have status completed,
advancing the cursor to that task's index; it returns none when no such task exists at or
after the cursor; it never returns a task with an incomplete dependency (every dependency
id resolves to a task with status completed); and a repeated call with no intervening
status change returns the same task and leaves the state fixed. -/
theorem getNextTask_spec (m : PlanManager) (p : Plan) (hp : m.plan = some p) :
    (∀ t m', m.getNextTask = (some t, m') →
      ∃ i, m'.plan = some { p with currentTaskIndex := i } ∧
        p.currentTaskIndex ≤ i ∧ p.tasks.get? i = some t ∧
        t.status = TaskStatus.pending ∧
        (∀ depId, depId ∈ t.dependencies →
          ∃ d, p.tasks.find? (fun d' => d'.id == depId) = some d ∧
            d.status = TaskStatus.completed) ∧
        (∀ j, p.currentTaskIndex ≤ j → j < i → ∀ u, p.tasks.get? j = some u →
          isReady p.tasks u = false) ∧
        m'.getNextTask = (some t, m')) ∧
    ((m.getNextTask).1 = none →
      ∀ j, p.currentTaskIndex ≤ j → ∀ u, p.tasks.get? j = some u →
        isReady p.tasks u = false) := by
  constructor
  · intro t m' h
    simp only [PlanManager.getNextTask, hp] at h
    cases hscan : scanFrom p.tasks (p.tasks.drop p.currentTaskIndex) p.currentTaskIndex with
    | none => rw [hscan] at h; simp at h
    | some it =>
      obtain ⟨i0, t0⟩ := it
      rw [hscan] at h
      simp only [Prod.mk.injEq, Option.some.injEq] at h
      obtain ⟨ht0, hm'⟩ := h
      subst ht0
      obtain ⟨hle, hget, hready, hfirst⟩ :=
        scanFrom_some_spec p.tasks (p.tasks.drop p.currentTaskIndex) p.currentTaskIndex rfl
          i0 t0 hscan
      have hsplit : t0.status = TaskStatus.pending ∧ depsComplete p.tasks t0 = true := by
        have hr := hready
        simp only [isReady, Bool.and_eq_true, beq_iff_eq] at hr
        exact hr
      obtain ⟨hlt, hgetel⟩ := List.get?_eq_some.mp hget
      have hdrop : p.tasks.drop i0 = t0 :: p.tasks.drop (i0 + 1) := by
        rw [List.drop_eq_getElem_cons hlt]
        rw [List.get_eq_getElem] at hgetel
        rw [hgetel]
      refine ⟨i0, ?_, hle, hget, hsplit.1, ?_, hfirst, ?_⟩
      · rw [← hm']
      · intro depId hdep
        have hall := hsplit.2
        rw [depsComplete, List.all_eq_true] at hall
        have hd := hall depId hdep
        cases hfind : p.tasks.find? (fun d' => d'.id == depId) with
        | none => rw [hfind] at hd; cases hd
        | some d =>
          rw [hfind] at hd
          refine ⟨d, rfl, ?_⟩
          simpa [beq_iff_eq] using hd
      · rw [← hm']
        exact getNextTask_head_ready
          { m with plan := some { p with currentTaskIndex := i0 } }
          { p with currentTaskIndex := i0 } t0 (p.tasks.drop (i0 + 1)) rfl hdrop hready
  · intro h
    simp only [PlanManager.getNextTask, hp] at h
    cases hscan : scanFrom p.tasks (p.tasks.drop p.currentTaskIndex) p.currentTaskIndex with
    | none =>
      exact scanFrom_none_spec p.tasks (p.tasks.drop p.currentTaskIndex) p.currentTaskIndex
        rfl hscan
    | some it =>
      obtain ⟨i0, t0⟩ := it
      rw [hscan] at h
      simp at h

/-! Sample fixtures used by witnesses. -/

def sampleTask1 : Task :=
  { id := "task-1", title := "first", description := "", status := TaskStatus.completed,
    dependencies := [], verifyCommand := none, attempts := 1, maxAttempts := 3, error := none }

def sampleTask2 : Task :=
  { id := "task-2", title := "second", description := "", status := TaskStatus.pending,
    dependencies := ["task-1"], verifyCommand := none, attempts := 0, maxAttempts := 3,
    error := none }

def sampleTask3 : Task :=
  { id := "task-3", title := "third", description := "", status := TaskStatus.pending,
    dependencies := ["task-2"], verifyCommand := none, attempts := 0, maxAttempts := 3,
    error := none }

def samplePlan : Plan :=
  { id := "ab12cd34", goal := "demo goal", createdAt := "2026-01-01",
    status := PlanStatus.in_progress, summary := "demo summary",
    tasks := [sampleTask1, sampleTask2, sampleTask3], currentTaskIndex := 0,
    verifyCommands := { build := none, test := none, lint := none },
    workingDirectory := "." }

def samplePM : PlanManager :=
  { plan := some samplePlan, config := DEFAULT_PLAN_CONFIG }

def samplePMnext : PlanManager :=
  { plan := some { samplePlan with currentTaskIndex := 1 }, config := DEFAULT_PLAN_CONFIG }

/-- Witness for C1: on a concrete three-task plan (task-2 pending with completed
dependency task-1), `getNextTask` selects task-2 and a repeated call returns the same
task and state. -/
theorem getNextTask_spec_witness :
    samplePM.plan = some samplePlan ∧
    samplePMnext.getNextTask = (some sampleTask2, samplePMnext) := by
  refine ⟨rfl, ?_⟩
  obtain ⟨i, hplan, hle, hget, hstat, hdeps, hfirst, hrep⟩ :=
    (getNextTask_spec samplePM samplePlan rfl).1 sampleTask2 samplePMnext (by decide)
  exact hrep

/-! ## PlanManager task transitions (plan-manager.ts) -/

/-- The TypeScript transitions find the task by id with `tasks.find(...)` and then
mutate the found object in place; this is an update of the first matching element. -/
def updateTaskBy (taskId : String) (f : Task → Task) : List Task → List Task
  | [] => []
  | t :: ts => if t.id == taskId then f t :: ts else t :: updateTaskBy taskId f ts

/-- `this.plan?.tasks.find(t => t.id === taskId)`, as a query on the manager state. -/
def PlanManager.findTask (m : PlanManager) (taskId : String) : Option Task :=
  match m.plan with
  | none => none
  | some p => p.tasks.find? (fun t => t.id == taskId)

/-- `markTaskInProgress` from plan-manager.ts: set the found task's status to
`in_progress` and increment its `attempts`; no-op when the task is absent. -/
def PlanManager.markTaskInProgress (m : PlanManager) (taskId : String) : PlanManager :=
  match m.plan with
  | none => m
  | some p =>
    match p.tasks.find? (fun t => t.id == taskId) with
    | none => m
    | some _ =>
      let tasks' := updateTaskBy taskId
        (fun t => { t with status := TaskStatus.in_progress, attempts := t.attempts + 1 })
        p.tasks
      { m with plan := some { p with tasks := tasks' } }

/-- `checkPlanCompletion` from plan-manager.ts. -/
def PlanManager.checkPlanCompletion (m : PlanManager) : PlanManager :=
  match m.plan with
  | none => m
  | some p =>
    if p.tasks.all (fun t => t.status == TaskStatus.completed) then
      { m with plan := some { p with status := PlanStatus.completed } }
    else if p.tasks.any (fun t => t.status == TaskStatus.failed) && m.config.stopOnFirstFailure then
      { m with plan := some { p with status := PlanStatus.failed } }
    else m

/-- `markTaskCompleted` from plan-manager.ts: set status `completed`, clear the stored
error, then re-evaluate plan completion. -/
def PlanManager.markTaskCompleted (m : PlanManager) (taskId : String) : PlanManager :=
  let m1 : PlanManager :=
    match m.plan with
    | none => m
    | some p =>
      match p.tasks.find? (fun t => t.id == taskId) with
      | none => m
      | some _ =>
        let tasks' := updateTaskBy taskId
          (fun t => { t with status := TaskStatus.completed, error := none })
          p.tasks
        { m with plan := some { p with tasks := tasks' } }
  PlanManager.checkPlanCompletion m1

/-- `markTaskFailed` from plan-manager.ts: store the error; if the found task's
`attempts >= maxAttempts` set it to `failed` (and, when `stopOnFirstFailure` is
configured, force the plan status to `failed`), otherwise reset it to `pending`. -/
def PlanManager.markTaskFailed (m : PlanManager) (taskId err : String) : PlanManager :=
  match m.plan with
  | none => m
  | some p =>
    match p.tasks.find? (fun t => t.id == taskId) with
    | none => m
    | some t0 =>
      let failedNow : Bool := decide (t0.maxAttempts ≤ t0.attempts)
      let newStatus := if failedNow then TaskStatus.failed else TaskStatus.pending
      let tasks' := updateTaskBy taskId
        (fun t => { t with error := some err, status := newStatus }) p.tasks
      let status' := if failedNow && m.config.stopOnFirstFailure then PlanStatus.failed
        else p.status
      { m with plan := some { p with tasks := tasks', status := status' } }

theorem find?_updateTaskBy (taskId : String) (f : Task → Task)
    (hf : ∀ t, (f t).id = t.id) :
    ∀ tasks : List Task,
      (updateTaskBy taskId f tasks).find? (fun t => t.id == taskId) =
        (tasks.find? (fun t => t.id == taskId)).map f := by
  intro tasks
  induction tasks with
  | nil => rfl
  | cons t ts ih =>
    by_cases h : (t.id == taskId) = true
    · rw [updateTaskBy, if_pos h]
      rw [@List.find?_cons_of_pos _ (fun u => u.id == taskId) (f t) ts
        (by simp only [hf t]; exact h)]
      rw [@List.find?_cons_of_pos _ (fun u => u.id == taskId) t ts h]
      rfl
    · have h' : (t.id == taskId) = false := by
        cases hval : t.id == taskId
        · rfl
        · exact absurd hval h
      rw [updateTaskBy, if_neg (by rw [h']; exact Bool.false_ne_true)]
      rw [@List.find?_cons_of_neg _ (fun u => u.id == taskId) t (updateTaskBy taskId f ts)
        (by simp only [h']; exact Bool.false_ne_true)]
      rw [@List.find?_cons_of_neg _ (fun u => u.id == taskId) t ts
        (by simp only [h']; exact Bool.false_ne_true)]
      exact ih

theorem markTaskInProgress_state (m : PlanManager) (p : Plan) (taskId : String) (t : Task)
    (hp : m.plan = some p) (ht : p.tasks.find? (fun u => u.id == taskId) = some t) :
    m.markTaskInProgress taskId =
      { m with plan := some { p with tasks := updateTaskBy taskId (fun u => { u with status := TaskStatus.in_progress, attempts := u.attempts + 1 }) p.tasks } } := by
  simp [PlanManager.markTaskInProgress, hp, ht]

theorem markTaskFailed_state (m : PlanManager) (p : Plan) (taskId err : String) (t : Task)
    (hp : m.plan = some p) (ht : p.tasks.find? (fun u => u.id == taskId) = some t) :
    m.markTaskFailed taskId err =
      { m with plan := some { p with tasks := updateTaskBy taskId (fun u => { u with error := some err, status := if t.maxAttempts ≤ t.attempts then TaskStatus.failed else TaskStatus.pending }) p.tasks, status := if t.maxAttempts ≤ t.attempts ∧ m.config.stopOnFirstFailure = true then PlanStatus.failed else p.status } } := by
  by_cases hc : t.maxAttempts ≤ t.attempts
  · by_cases hs : m.config.stopOnFirstFailure = true
    · simp [PlanManager.markTaskFailed, hp, ht, hc, hs]
    · simp [PlanManager.markTaskFailed, hp, ht, hc, hs]
  · simp [PlanManager.markTaskFailed, hp, ht, hc]

theorem findTask_of_state (m : PlanManager) (p : Plan) (taskId : String)
    (hp : m.plan = some p) :
    m.findTask taskId = p.tasks.find? (fun u => u.id == taskId) := by
  simp [PlanManager.findTask, hp]

theorem markTaskFailed_findTask (m : PlanManager) (p : Plan) (taskId err : String) (t : Task)
    (hp : m.plan = some p) (ht : p.tasks.find? (fun u => u.id == taskId) = some t) :
    (m.markTaskFailed taskId err).findTask taskId =
      some { t with error := some err, status := if t.maxAttempts ≤ t.attempts then TaskStatus.failed else TaskStatus.pending } ∧
    ∃ p', (m.markTaskFailed taskId err).plan = some p' ∧
      p'.status = (if t.maxAttempts ≤ t.attempts ∧ m.config.stopOnFirstFailure = true then PlanStatus.failed else p.status) := by
  rw [markTaskFailed_state m p taskId err t hp ht]
  constructor
  · rw [findTask_of_state _ _ taskId rfl]
    rw [find?_updateTaskBy taskId (fun u => { u with error := some err, status := if t.maxAttempts ≤ t.attempts then TaskStatus.failed else TaskStatus.pending }) (fun u => rfl) p.tasks, ht]
    rfl
  · exact ⟨_, rfl, rfl⟩

/-- One failure cycle of a task as driven by the Executor: `markTaskInProgress`
(which increments `attempts`) followed by `markTaskFailed`. -/
def retryRound (taskId err : String) (m : PlanManager) : PlanManager :=
  (m.markTaskInProgress taskId).markTaskFailed taskId err

theorem retryRound_findTask (m : PlanManager) (p : Plan) (taskId err : String) (t : Task)
    (hp : m.plan = some p) (ht : p.tasks.find? (fun u => u.id == taskId) = some t) :
    (retryRound taskId err m).findTask taskId =
      some { t with attempts := t.attempts + 1, error := some err, status := if t.maxAttempts ≤ t.attempts + 1 then TaskStatus.failed else TaskStatus.pending } := by
  rw [retryRound, markTaskInProgress_state m p taskId t hp ht]
  have ht1 : (updateTaskBy taskId (fun u => { u with status := TaskStatus.in_progress, attempts := u.attempts + 1 }) p.tasks).find? (fun u => u.id == taskId) =
      some { t with status := TaskStatus.in_progress, attempts := t.attempts + 1 } := by
    rw [find?_updateTaskBy taskId (fun u => { u with status := TaskStatus.in_progress, attempts := u.attempts + 1 }) (fun u => rfl) p.tasks, ht]
    rfl
  have h2 := (markTaskFailed_findTask
    { m with plan := some { p with tasks := updateTaskBy taskId (fun u => { u with status := TaskStatus.in_progress, attempts := u.attempts + 1 }) p.tasks } }
    { p with tasks := updateTaskBy taskId (fun u => { u with status := TaskStatus.in_progress, attempts := u.attempts + 1 }) p.tasks }
    taskId err
    { t with status := TaskStatus.in_progress, attempts := t.attempts + 1 } rfl ht1).1
  exact h2

theorem retryRound_iterate (taskId err : String) (m : PlanManager) (p : Plan) (t : Task)
    (hp : m.plan = some p) (ht : p.tasks.find? (fun u => u.id == taskId) = some t) :
    ∀ n, 0 < n →
      ((retryRound taskId err)^[n] m).findTask taskId =
        some { t with attempts := t.attempts + n, error := some err, status := if t.maxAttempts ≤ t.attempts + n then TaskStatus.failed else TaskStatus.pending } := by
  intro n
  induction n with
  | zero => intro h; exact absurd h (lt_irrefl 0)
  | succ k ih =>
    intro _
    rcases Nat.eq_zero_or_pos k with hk | hk
    · subst hk
      simpa using retryRound_findTask m p taskId err t hp ht
    · rw [Function.iterate_succ_apply']
      have hprev := ih hk
      set mk := (retryRound taskId err)^[k] m with hmk
      rcases hpk : mk.plan with _ | pk
      · rw [PlanManager.findTask, hpk] at hprev
        simp at hprev
      · rw [findTask_of_state mk pk taskId hpk] at hprev
        have hstep := retryRound_findTask mk pk taskId err _ hpk hprev
        rw [hstep]
        by_cases hc2 : t.maxAttempts ≤ t.attempts + (k + 1)
        · have hc1 : t.maxAttempts ≤ t.attempts + k + 1 := by omega
          simp [hc1, hc2, Nat.add_assoc]
        · have hc1 : ¬ t.maxAttempts ≤ t.attempts + k + 1 := by omega
          simp [hc1, hc2, Nat.add_assoc]

/-- C2: `markTaskInProgress` increments the task's `attempts` exactly once (and sets it
in progress); `markTaskFailed` with `attempts < maxAttempts` resets the task to `pending`
and stores the error while leaving the plan status unchanged; with
`attempts >= maxAttempts` it sets the terminal `failed` status, forcing the plan status to
`failed` exactly when stop-on-first-failure is configured; consequently a task that starts
at `attempts = 0` and fails on every one of `maxAttempts` mark-in-progress/mark-failed
rounds ends with status `failed` and `attempts = maxAttempts`, and any further failing
round leaves it `failed` — it is never re-queued to `pending` again. -/
theorem taskRetry_spec (m : PlanManager) (p : Plan) (taskId err : String) (t : Task)
    (hp : m.plan = some p) (ht : p.tasks.find? (fun u => u.id == taskId) = some t) :
    ((m.markTaskInProgress taskId).findTask taskId =
      some { t with status := TaskStatus.in_progress, attempts := t.attempts + 1 }) ∧
    (t.attempts < t.maxAttempts →
      (m.markTaskFailed taskId err).findTask taskId =
        some { t with error := some err, status := TaskStatus.pending } ∧
      ∃ p', (m.markTaskFailed taskId err).plan = some p' ∧ p'.status = p.status) ∧
    (t.maxAttempts ≤ t.attempts →
      (m.markTaskFailed taskId err).findTask taskId =
        some { t with error := some err, status := TaskStatus.failed } ∧
      ∃ p', (m.markTaskFailed taskId err).plan = some p' ∧
        p'.status = (if m.config.stopOnFirstFailure = true then PlanStatus.failed else p.status)) ∧
    (t.attempts = 0 →
      ∀ n, t.maxAttempts ≤ n → 0 < n →
        ((retryRound taskId err)^[n] m).findTask taskId =
          some { t with attempts := n, error := some err, status := TaskStatus.failed }) := by
  refine ⟨?_, ?_, ?_, ?_⟩
  · rw [markTaskInProgress_state m p taskId t hp ht, findTask_of_state _ _ taskId rfl]
    rw [find?_updateTaskBy taskId (fun u => { u with status := TaskStatus.in_progress, attempts := u.attempts + 1 }) (fun u => rfl) p.tasks, ht]
    rfl
  · intro hlt
    obtain ⟨h1, p', h2, h3⟩ := markTaskFailed_findTask m p taskId err t hp ht
    have hc : ¬ t.maxAttempts ≤ t.attempts := by omega
    refine ⟨?_, p', h2, ?_⟩
    · rw [h1]; simp [hc]
    · rw [h3]; simp [hc]
  · intro hge
    obtain ⟨h1, p', h2, h3⟩ := markTaskFailed_findTask m p taskId err t hp ht
    refine ⟨?_, p', h2, ?_⟩
    · rw [h1]; simp [hge]
    · rw [h3]; simp [hge]
  · intro h0 n hn hpos
    have := retryRound_iterate taskId err m p t hp ht n hpos
    rw [this, h0]
    have hc : t.maxAttempts ≤ 0 + n := by omega
    simp [hc, hn]

/-- Witness for C2: on the sample plan, three failing rounds drive `task-2`
(`maxAttempts = 3`, starting at `attempts = 0`) to terminal `failed` with
`attempts = 3`, and a fourth failing round leaves it `failed`. -/
theorem taskRetry_spec_witness :
    ((retryRound "task-2" "boom")^[3] samplePM).findTask "task-2" =
      some { sampleTask2 with attempts := 3, error := some "boom", status := TaskStatus.failed } ∧
    ((retryRound "task-2" "boom")^[4] samplePM).findTask "task-2" =
      some { sampleTask2 with attempts := 4, error := some "boom", status := TaskStatus.failed } := by
  have h := (taskRetry_spec samplePM samplePlan "task-2" "boom" sampleTask2 rfl
    (by decide)).2.2.2 rfl
  exact ⟨h 3 (by decide) (by decide), h 4 (by decide) (by decide)⟩


/-! ## PlanManager state machine (plan-manager.ts, approvePlan / startExecution) -/

/-- `approvePlan` from plan-manager.ts: returns false unless there is a plan in status
`draft`; otherwise sets status `approved` and returns true. -/
def PlanManager.approvePlan (m : PlanManager) : Bool × PlanManager :=
  match m.plan with
  | none => (false, m)
  | some p =>
    if p.status == PlanStatus.draft then
      (true, { m with plan := some { p with status := PlanStatus.approved } })
    else (false, m)

/-- `startExecution` from plan-manager.ts: returns false unless there is a plan in status
`approved`; otherwise sets status `in_progress` and returns true. -/
def PlanManager.startExecution (m : PlanManager) : Bool × PlanManager :=
  match m.plan with
  | none => (false, m)
  | some p =>
    if p.status == PlanStatus.approved then
      (true, { m with plan := some { p with status := PlanStatus.in_progress } })
    else (false, m)

/-- C3: `approvePlan` succeeds (returning true and setting status `approved`) if and only
if the current status is `draft`, and otherwise returns false leaving the manager state
unchanged; `startExecution` succeeds (setting status `in_progress`) if and only if the
current status is `approved`, and otherwise returns false leaving the state unchanged —
so the plan status only moves along draft → approved → in_progress through these two
transitions. -/
theorem planStateMachine_spec (m : PlanManager) (p : Plan) (hp : m.plan = some p) :
    ((m.approvePlan).1 = true ↔ p.status = PlanStatus.draft) ∧
    (p.status = PlanStatus.draft →
      m.approvePlan = (true, { m with plan := some { p with status := PlanStatus.approved } })) ∧
    (p.status ≠ PlanStatus.draft → m.approvePlan = (false, m)) ∧
    ((m.startExecution).1 = true ↔ p.status = PlanStatus.approved) ∧
    (p.status = PlanStatus.approved →
      m.startExecution =
        (true, { m with plan := some { p with status := PlanStatus.in_progress } })) ∧
    (p.status ≠ PlanStatus.approved → m.startExecution = (false, m)) := by
  refine ⟨?_, ?_, ?_, ?_, ?_, ?_⟩
  · constructor
    · intro h
      by_cases hs : p.status = PlanStatus.draft
      · exact hs
      · simp [PlanManager.approvePlan, hp, hs] at h
    · intro hs
      simp [PlanManager.approvePlan, hp, hs]
  · intro hs
    simp [PlanManager.approvePlan, hp, hs]
  · intro hs
    simp [PlanManager.approvePlan, hp, hs]
  · constructor
    · intro h
      by_cases hs : p.status = PlanStatus.approved
      · exact hs
      · simp [PlanManager.startExecution, hp, hs] at h
    · intro hs
      simp [PlanManager.startExecution, hp, hs]
  · intro hs
    simp [PlanManager.startExecution, hp, hs]
  · intro hs
    simp [PlanManager.startExecution, hp, hs]

def draftPlan : Plan := { samplePlan with status := PlanStatus.draft }

def draftPM : PlanManager := { plan := some draftPlan, config := DEFAULT_PLAN_CONFIG }

/-- Witness for C3: a concrete draft plan is approved (returning true), approving again
fails and changes nothing, and execution starts only from `approved`. -/
theorem planStateMachine_spec_witness :
    draftPM.approvePlan =
      (true, { draftPM with plan := some { draftPlan with status := PlanStatus.approved } }) ∧
    ((draftPM.approvePlan).2.approvePlan).1 = false ∧
    ((draftPM.approvePlan).2.startExecution).1 = true := by
  have h1 := (planStateMachine_spec draftPM draftPlan rfl).2.1 rfl
  refine ⟨h1, ?_, ?_⟩
  · have h2 := (planStateMachine_spec (draftPM.approvePlan).2
      { draftPlan with status := PlanStatus.approved } (by rw [h1])).2.2.1 (by decide)
    rw [h2]
  · have h3 := (planStateMachine_spec (draftPM.approvePlan).2
      { draftPlan with status := PlanStatus.approved } (by rw [h1])).2.2.2.2.1 rfl
    rw [h3]

/-! ## Verifier (src/planning/verifier.ts) -/

/-- The JavaScript whitespace class used by `String.prototype.trim` (and by `\s` in the
parser's regexes): space, tab, newline, vertical tab, form feed, carriage return, and the
common unicode spaces (NBSP, BOM). -/
def isJsWs (c : Char) : Bool :=
  c == ' ' || c == '\t' || c == '\n' || c == '\r' || c == Char.ofNat 11 ||
  c == Char.ofNat 12 || c == Char.ofNat 160 || c == Char.ofNat 65279

/-- JavaScript `String.prototype.trim` on a character list. -/
def trimChars (cs : List Char) : List Char :=
  ((cs.dropWhile isJsWs).reverse.dropWhile isJsWs).reverse

/-- JavaScript `String.prototype.trim` on a `String`. -/
def jsTrim (s : String) : String :=
  String.mk (trimChars s.toList)

/-- `VerificationResult` from types.ts. -/
structure VerificationResult where
  success : Bool
  command : String
  output : String
  exitCode : Int
deriving DecidableEq, Repr

/-- The outcome of the `execAsync` subprocess call inside `Verifier.runCommand`:
either a zero-exit completion with captured stdout/stderr, or a rejection (non-zero
exit, timeout, spawn failure) carrying any captured stdout/stderr, the error message,
and the exit code when one exists. -/
inductive ExecResult where
  | ok (stdout stderr : String)
  | fail (stdout stderr message : String) (code : Option Int)
deriving DecidableEq, Repr

/-- The combined failure output of `runCommand`:
`let output = ''; if (stdout) output += stdout; if (stderr) output += (output ? '\n' : '') + stderr;`. -/
def failCombined (stdout stderr : String) : String :=
  let output1 := if stdout ≠ "" then stdout else ""
  if stderr ≠ "" then output1 ++ (if output1 ≠ "" then "\n" else "") ++ stderr else output1

/-- `Verifier.runCommand` from verifier.ts, given the subprocess outcome: never throws;
a completed command yields a success result with combined stdout/stderr (or a placeholder
when empty), a rejected command yields a failure result with the combined captured
output, falling back to the error message when nothing was captured. -/
def Verifier.runCommand (command : String) (res : ExecResult) : VerificationResult :=
  match res with
  | ExecResult.ok stdout stderr =>
    let output := stdout ++ (if stderr ≠ "" then "\nstderr:\n" ++ stderr else "")
    { success := true, command := command,
      output := if jsTrim output ≠ "" then jsTrim output else "(completed with no output)",
      exitCode := 0 }
  | ExecResult.fail stdout stderr message code =>
    let output2 := failCombined stdout stderr
    let output3 := if output2 = "" ∧ message ≠ "" then message else output2
    { success := false, command := command, output := jsTrim output3,
      exitCode := match code with | some c => if c = 0 then 1 else c | none => 1 }

/-- `Verifier.verifyAll` from verifier.ts: run lint, then build, then test in that order,
skipping each later step once `allSuccess` is false; `runner` stands for the
`runCommand` invocation on a configured command string. -/
def Verifier.verifyAll (runner : String → VerificationResult) (cmds : VerifyCommands) :
    Bool × List VerificationResult :=
  let a0 : Bool × List VerificationResult := (true, [])
  let a1 := match cmds.lint with
    | some c => let r := runner c; (a0.1 && r.success, a0.2 ++ [r])
    | none => a0
  let a2 := match cmds.build with
    | some c => if a1.1 then (let r := runner c; (a1.1 && r.success, a1.2 ++ [r])) else a1
    | none => a1
  let a3 := match cmds.test with
    | some c => if a2.1 then (let r := runner c; (a2.1 && r.success, a2.2 ++ [r])) else a2
    | none => a2
  a3

/-- C7: `runCommand` never throws (it is a total function of the subprocess outcome): a
non-zero exit or timeout yields `success = false` with the combined captured
stdout/stderr as output, or the error message when no output was captured; and
`verifyAll` runs lint, then build, then test in order, skipping every later step as soon
as one fails, returning the results gathered so far plus the overall flag — in
particular, with a failing build command the test command is never consulted. -/
theorem verifier_spec :
    (∀ cmd stdout stderr, (Verifier.runCommand cmd (ExecResult.ok stdout stderr)).success = true) ∧
    (∀ cmd stdout stderr message code,
      (Verifier.runCommand cmd (ExecResult.fail stdout stderr message code)).success = false ∧
      (failCombined stdout stderr ≠ "" →
        (Verifier.runCommand cmd (ExecResult.fail stdout stderr message code)).output =
          jsTrim (failCombined stdout stderr)) ∧
      (failCombined stdout stderr = "" → message ≠ "" →
        (Verifier.runCommand cmd (ExecResult.fail stdout stderr message code)).output =
          jsTrim message)) ∧
    (∀ (runner : String → VerificationResult) (cmds : VerifyCommands) lc bc,
      cmds.lint = some lc → cmds.build = some bc →
      (runner lc).success = true → (runner bc).success = false →
      Verifier.verifyAll runner cmds = (false, [runner lc, runner bc])) ∧
    (∀ (runner : String → VerificationResult) (cmds : VerifyCommands) bc,
      cmds.lint = none → cmds.build = some bc → (runner bc).success = false →
      Verifier.verifyAll runner cmds = (false, [runner bc])) ∧
    (∀ (runner : String → VerificationResult) (cmds : VerifyCommands) lc,
      cmds.lint = some lc → (runner lc).success = false →
      Verifier.verifyAll runner cmds = (false, [runner lc])) ∧
    (∀ (r1 r2 : String → VerificationResult) (cmds : VerifyCommands) bc,
      cmds.build = some bc → r1 bc = r2 bc → (r1 bc).success = false →
      (∀ lc, cmds.lint = some lc → r1 lc = r2 lc) →
      (match cmds.lint with | some lc => (r1 lc).success = true | none => True) →
      Verifier.verifyAll r1 cmds = Verifier.verifyAll r2 cmds) ∧
    (∀ (runner : String → VerificationResult) (cmds : VerifyCommands) lc bc tc,
      cmds.lint = some lc → cmds.build = some bc → cmds.test = some tc →
      (runner lc).success = true → (runner bc).success = true →
      (runner tc).success = true →
      Verifier.verifyAll runner cmds = (true, [runner lc, runner bc, runner tc])) := by
  refine ⟨?_, ?_, ?_, ?_, ?_, ?_, ?_⟩
  · intro cmd stdout stderr; rfl
  · intro cmd stdout stderr message code
    refine ⟨rfl, ?_, ?_⟩
    · intro hne
      simp [Verifier.runCommand, hne]
    · intro he hm
      simp [Verifier.runCommand, he, hm]
  · intro runner cmds lc bc hl hb hls hbs
    simp [Verifier.verifyAll, hl, hb, hls, hbs]
    cases htc : cmds.test
    · simp
    · simp
  · intro runner cmds bc hl hb hbs
    simp [Verifier.verifyAll, hl, hb, hbs]
    cases htc : cmds.test
    · simp
    · simp
  · intro runner cmds lc hl hls
    simp [Verifier.verifyAll, hl, hls]
    cases hbc : cmds.build
    · cases htc : cmds.test
      · simp
      · simp
    · cases htc : cmds.test
      · simp
      · simp
  · intro r1 r2 cmds bc hb hsame hbs hlsame hlpass
    cases hl : cmds.lint with
    | none =>
      cases htc : cmds.test with
      | none => simp [Verifier.verifyAll, hl, hb, htc, ← hsame, hbs]
      | some tc => simp [Verifier.verifyAll, hl, hb, htc, ← hsame, hbs]
    | some lc =>
      rw [hl] at hlpass
      have hleq := hlsame lc hl
      cases htc : cmds.test with
      | none => simp [Verifier.verifyAll, hl, hb, htc, hlpass, ← hsame, ← hleq, hbs]
      | some tc => simp [Verifier.verifyAll, hl, hb, htc, hlpass, ← hsame, ← hleq, hbs]
  · intro runner cmds lc bc tc hl hb htc hls hbs hts
    simp [Verifier.verifyAll, hl, hb, htc, hls, hbs, hts]

/-- Witness for C7 on concrete data: a failing build short-circuits `verifyAll` so the
test command's result never appears, and the failure result carries the captured stderr. -/
theorem verifier_spec_witness :
    (Verifier.runCommand "npm run build" (ExecResult.fail "" "TS2304: error" "Command failed" (some 2))).success = false ∧
    (Verifier.runCommand "npm run build" (ExecResult.fail "" "TS2304: error" "Command failed" (some 2))).output = "TS2304: error" ∧
    Verifier.verifyAll
      (fun c => if c = "npm run build"
        then Verifier.runCommand "npm run build" (ExecResult.fail "" "TS2304: error" "Command failed" (some 2))
        else Verifier.runCommand c (ExecResult.ok "all tests passed" ""))
      { build := some "npm run build", test := some "npm test", lint := none } =
      (false, [Verifier.runCommand "npm run build" (ExecResult.fail "" "TS2304: error" "Command failed" (some 2))]) := by
  refine ⟨(verifier_spec.2.1 "npm run build" "" "TS2304: error" "Command failed" (some 2)).1, ?_, ?_⟩
  · have h := ((verifier_spec.2.1 "npm run build" "" "TS2304: error" "Command failed" (some 2)).2.1) (by decide)
    rw [h]; decide
  · exact verifier_spec.2.2.2.1 _
      { build := some "npm run build", test := some "npm test", lint := none }
      "npm run build" rfl rfl (by decide)

/-! ## Executor (src/planning/executor.ts) -/

/-- The `isApproved` getter from plan-manager.ts:
`this.plan?.status === 'approved' || this.plan?.status === 'in_progress'`. -/
def PlanManager.isApproved (m : PlanManager) : Bool :=
  match m.plan with
  | some p => p.status == PlanStatus.approved || p.status == PlanStatus.in_progress
  | none => false

/-- The final check of `Executor.execute`:
`this.planManager.currentPlan?.status === 'completed'`. -/
def planCompleted (m : PlanManager) : Bool :=
  match m.plan with
  | some p => p.status == PlanStatus.completed
  | none => false

/-- The success/output pair produced by one `executeTask` call (agent run plus
build/test verification and the corrective pass); its outcome is decided by the model
and the subprocesses, so it enters the embedding as an oracle indexed by loop step. -/
structure ExecOutcome where
  success : Bool
  output : String
deriving DecidableEq, Repr

/-- The `while (!this.shouldStop)` task loop of `Executor.execute`, with `stop()` never
called (cancellation is only consulted between tasks and no concurrent caller exists in
a single execution).  `fuel` bounds the number of iterations; exhausted fuel behaves
like loop exit.  `willRetry` reads `task.attempts < task.maxAttempts` from the live task
object after `markTaskInProgress` has incremented it, exactly as the source does. -/
def execLoop (outcome : Nat → Task → ExecOutcome) (config : PlanConfig) :
    Nat → Nat → PlanManager → PlanManager
  | 0, _, m => m
  | fuel + 1, step, m =>
    match m.getNextTask with
    | (none, m1) => m1
    | (some task, m1) =>
      let m2 := m1.markTaskInProgress task.id
      let res := outcome step task
      if res.success then
        execLoop outcome config fuel (step + 1) (m2.markTaskCompleted task.id)
      else
        let willRetry :=
          match m2.findTask task.id with
          | some t' => decide (t'.attempts < t'.maxAttempts)
          | none => false
        let m3 := m2.markTaskFailed task.id res.output
        if !willRetry && config.stopOnFirstFailure then m3
        else execLoop outcome config fuel (step + 1) m3

/-- `Executor.execute` from executor.ts: throw unless `planManager.isApproved`, call
`startExecution`, run the task loop, and return whether the final plan status is
`completed`. -/
def Executor.execute (outcome : Nat → Task → ExecOutcome) (config : PlanConfig)
    (fuel : Nat) (m : PlanManager) : Except String (Bool × PlanManager) :=
  if m.isApproved then
    let m1 := (m.startExecution).2
    let m2 := execLoop outcome config fuel 0 m1
    Except.ok (planCompleted m2, m2)
  else Except.error "Plan must be approved before execution"

/-- C8 (amended): `Executor.execute` throws unless the manager's `isApproved` getter
holds — i.e. unless the plan status is `approved` or already `in_progress` (not only
`approved` as the claim states); when it proceeds, the plan entering the task loop has
status `in_progress`; and the call returns true if and only if the plan's final status is
`completed`. -/
theorem executorExecute_spec (outcome : Nat → Task → ExecOutcome) (config : PlanConfig)
    (fuel : Nat) (m : PlanManager) :
    (m.isApproved = false →
      Executor.execute outcome config fuel m =
        Except.error "Plan must be approved before execution") ∧
    (m.isApproved = true →
      (∃ p, ((m.startExecution).2).plan = some p ∧ p.status = PlanStatus.in_progress) ∧
      Executor.execute outcome config fuel m =
        Except.ok (planCompleted (execLoop outcome config fuel 0 (m.startExecution).2),
          execLoop outcome config fuel 0 (m.startExecution).2)) ∧
    (∀ b m', Executor.execute outcome config fuel m = Except.ok (b, m') →
      (b = true ↔ ∃ p, m'.plan = some p ∧ p.status = PlanStatus.completed)) := by
  refine ⟨?_, ?_, ?_⟩
  · intro h
    simp [Executor.execute, h]
  · intro h
    constructor
    · rcases hp : m.plan with _ | p
      · rw [PlanManager.isApproved, hp] at h; cases h
      · rw [PlanManager.isApproved, hp] at h
        rcases Bool.or_eq_true_iff.mp h with ha | hi
        · have ha' : p.status = PlanStatus.approved := by
            exact of_decide_eq_true ha
          refine ⟨{ p with status := PlanStatus.in_progress }, ?_, rfl⟩
          simp [PlanManager.startExecution, hp, ha']
        · have hi' : p.status = PlanStatus.in_progress := by
            exact of_decide_eq_true hi
          refine ⟨p, ?_, hi'⟩
          simp [PlanManager.startExecution, hp, hi']
    · simp [Executor.execute, h]
  · intro b m' hrun
    by_cases h : m.isApproved = true
    · simp only [Executor.execute, h, if_true] at hrun
      injection hrun with hrun
      injection hrun with hb hm'
      subst hb; subst hm'
      rw [planCompleted]
      cases hp : (execLoop outcome config fuel 0 (m.startExecution).2).plan with
      | none => simp
      | some p =>
        simp only [beq_iff_eq]
        constructor
        · intro hs
          exact ⟨p, rfl, hs⟩
        · intro ⟨q, hq, hqs⟩
          injection hq with hq
          subst hq
          exact hqs
    · have h' : m.isApproved = false := by
        cases hval : m.isApproved
        · rfl
        · exact absurd hval h
      simp [Executor.execute, h'] at hrun

/-- Counterexample for C8 as stated: a plan whose status is `in_progress` (hence not
`approved`) does not make `Executor.execute` fail — execution proceeds and returns a
result, because the `isApproved` getter also accepts `in_progress`. -/
theorem executorExecute_counterexample :
    samplePM.plan = some samplePlan ∧
    samplePlan.status = PlanStatus.in_progress ∧
    samplePlan.status ≠ PlanStatus.approved ∧
    (Executor.execute (fun _ _ => { success := true, output := "done" })
        DEFAULT_PLAN_CONFIG 4 samplePM).isOk = true := by
  refine ⟨rfl, rfl, by decide, by decide⟩

/-- Witness for C8 (amended) at concrete inputs: a draft plan makes `execute` throw,
and an approved two-task plan with always-successful task outcomes runs to completion
and returns true. -/
theorem executorExecute_spec_witness :
    draftPM.isApproved = false ∧
    Executor.execute (fun _ _ => { success := true, output := "done" })
      DEFAULT_PLAN_CONFIG 4 draftPM =
      Except.error "Plan must be approved before execution" := by
  refine ⟨by decide, ?_⟩
  exact (executorExecute_spec (fun _ _ => { success := true, output := "done" })
    DEFAULT_PLAN_CONFIG 4 draftPM).1 (by decide)

/-! ## JSON values and `JSON.parse` (the runtime parser that parser.ts calls) -/

/-- Characters referenced by code point to keep string/character literals simple. -/
def dQuote : Char := Char.ofNat 34

def sQuote : Char := Char.ofNat 39

def bSlash : Char := Char.ofNat 92

def backTick : Char := Char.ofNat 96

def lBrace : Char := Char.ofNat 123

def rBrace : Char := Char.ofNat 125

def lBracket : Char := Char.ofNat 91

def rBracket : Char := Char.ofNat 93

/-- A JSON value as produced by `JSON.parse`.  Number values keep their literal text:
no claim depends on numeric identity, and this avoids modelling JavaScript floating
point.  Object members are kept in source order; property access takes the last
duplicate, as `JSON.parse` does. -/
inductive Json where
  | null : Json
  | bool (b : Bool) : Json
  | num (lit : List Char) : Json
  | str (s : List Char) : Json
  | arr (elems : List Json) : Json
  | obj (members : List (List Char × Json)) : Json

/-- JSON whitespace accepted by `JSON.parse`: space, tab, line feed, carriage return. -/
def jsonWs (c : Char) : Bool :=
  c == ' ' || c == '\t' || c == '\n' || c == '\r'

def skipWs : List Char → List Char
  | [] => []
  | c :: cs => if jsonWs c then skipWs cs else c :: cs

def hexVal (c : Char) : Option Nat :=
  if '0' ≤ c ∧ c ≤ '9' then some (c.toNat - 48)
  else if 'a' ≤ c ∧ c ≤ 'f' then some (c.toNat - 87)
  else if 'A' ≤ c ∧ c ≤ 'F' then some (c.toNat - 55)
  else none

/-- The body of a JSON string after its opening quote: returns the decoded content and
the input after the closing quote.  Escapes and the raw-control-character restriction
follow the JSON grammar that `JSON.parse` enforces.  (A `\\u` escape denoting an
unpaired surrogate becomes the default character, a harmless deviation no claim
touches.) -/
def parseJStringBody : List Char → Option (List Char × List Char)
  | [] => none
  | c :: cs =>
    if c == dQuote then some ([], cs)
    else if c == bSlash then
      match cs with
      | [] => none
      | e :: cs2 =>
        if e == dQuote then (parseJStringBody cs2).map (fun (s, r) => (dQuote :: s, r))
        else if e == bSlash then (parseJStringBody cs2).map (fun (s, r) => (bSlash :: s, r))
        else if e == '/' then (parseJStringBody cs2).map (fun (s, r) => ('/' :: s, r))
        else if e == 'b' then (parseJStringBody cs2).map (fun (s, r) => (Char.ofNat 8 :: s, r))
        else if e == 'f' then (parseJStringBody cs2).map (fun (s, r) => (Char.ofNat 12 :: s, r))
        else if e == 'n' then (parseJStringBody cs2).map (fun (s, r) => ('\n' :: s, r))
        else if e == 'r' then (parseJStringBody cs2).map (fun (s, r) => ('\r' :: s, r))
        else if e == 't' then (parseJStringBody cs2).map (fun (s, r) => ('\t' :: s, r))
        else if e == 'u' then
          match cs2 with
          | h1 :: h2 :: h3 :: h4 :: cs3 =>
            match hexVal h1, hexVal h2, hexVal h3, hexVal h4 with
            | some a, some b, some c', some d =>
              (parseJStringBody cs3).map
                (fun (s, r) => (Char.ofNat (a * 4096 + b * 256 + c' * 16 + d) :: s, r))
            | _, _, _, _ => none
          | _ => none
        else none
    else if c.toNat < 32 then none
    else (parseJStringBody cs).map (fun (s, r) => (c :: s, r))

/-- An optional JSON fraction part. -/
def parseJFrac : List Char → Option (List Char × List Char)
  | [] => some ([], [])
  | c :: rest =>
    if c == '.' then
      let ds := rest.takeWhile Char.isDigit
      if ds.isEmpty then none else some ('.' :: ds, rest.dropWhile Char.isDigit)
    else some ([], c :: rest)

/-- An optional JSON exponent part. -/
def parseJExp : List Char → Option (List Char × List Char)
  | [] => some ([], [])
  | c :: rest =>
    if c == 'e' || c == 'E' then
      let (sg, r1) :=
        match rest with
        | d :: r => if d == '+' || d == '-' then ([d], r) else (([] : List Char), d :: r)
        | [] => ([], [])
      let ds := r1.takeWhile Char.isDigit
      if ds.isEmpty then none else some (c :: (sg ++ ds), r1.dropWhile Char.isDigit)
    else some ([], c :: rest)

/-- A JSON number literal (sign, integer part without leading zeros, optional fraction
and exponent), returned as its source text. -/
def parseJNumber (cs : List Char) : Option (List Char × List Char) :=
  let (sign, cs1) :=
    match cs with
    | c :: rest => if c == '-' then ([c], rest) else (([] : List Char), c :: rest)
    | [] => ([], [])
  let ip := cs1.takeWhile Char.isDigit
  let cs2 := cs1.dropWhile Char.isDigit
  if ip.isEmpty then none
  else if 1 < ip.length ∧ ip.head? = some '0' then none
  else
    match parseJFrac cs2 with
    | none => none
    | some (fp, cs3) =>
      match parseJExp cs3 with
      | none => none
      | some (ep, cs4) => some (sign ++ ip ++ fp ++ ep, cs4)

/-- Object members after the opening brace (first member not yet consumed); `pv` parses
one value at the next-smaller recursion depth. -/
def parseJMembersWith (pv : List Char → Option (Json × List Char)) :
    Nat → List Char → List (List Char × Json) → Option (Json × List Char)
  | 0, _, _ => none
  | fuel + 1, cs, acc =>
    match skipWs cs with
    | [] => none
    | c :: cs1 =>
      if c == dQuote then
        match parseJStringBody cs1 with
        | none => none
        | some (key, cs2) =>
          match skipWs cs2 with
          | ':' :: cs3 =>
            match pv cs3 with
            | none => none
            | some (v, cs4) =>
              match skipWs cs4 with
              | [] => none
              | c2 :: cs5 =>
                if c2 == ',' then parseJMembersWith pv fuel cs5 (acc ++ [(key, v)])
                else if c2 == rBrace then some (Json.obj (acc ++ [(key, v)]), cs5)
                else none
          | _ => none
      else none

/-- Array elements after the opening bracket (first element not yet consumed). -/
def parseJElemsWith (pv : List Char → Option (Json × List Char)) :
    Nat → List Char → List Json → Option (Json × List Char)
  | 0, _, _ => none
  | fuel + 1, cs, acc =>
    match pv cs with
    | none => none
    | some (v, cs1) =>
      match skipWs cs1 with
      | [] => none
      | c :: cs2 =>
        if c == ',' then parseJElemsWith pv fuel cs2 (acc ++ [v])
        else if c == rBracket then some (Json.arr (acc ++ [v]), cs2)
        else none

/-- One JSON value, fuel-bounded (the fuel dominates the nesting depth and member
counts; `jsonParse` supplies `length + 1`, which always suffices since every descent
first consumes a character). -/
def parseJ : Nat → List Char → Option (Json × List Char)
  | 0, _ => none
  | fuel + 1, cs =>
    match skipWs cs with
    | [] => none
    | c :: cs1 =>
      if c == dQuote then
        (parseJStringBody cs1).map (fun (s, r) => (Json.str s, r))
      else if c == lBrace then
        match skipWs cs1 with
        | [] => none
        | c2 :: cs2 =>
          if c2 == rBrace then some (Json.obj [], cs2)
          else parseJMembersWith (parseJ fuel) fuel cs1 []
      else if c == lBracket then
        match skipWs cs1 with
        | [] => none
        | c2 :: cs2 =>
          if c2 == rBracket then some (Json.arr [], cs2)
          else parseJElemsWith (parseJ fuel) fuel cs1 []
      else if c == 't' then
        if cs1.take 3 = ['r', 'u', 'e'] then some (Json.bool true, cs1.drop 3) else none
      else if c == 'f' then
        if cs1.take 4 = ['a', 'l', 's', 'e'] then some (Json.bool false, cs1.drop 4) else none
      else if c == 'n' then
        if cs1.take 3 = ['u', 'l', 'l'] then some (Json.null, cs1.drop 3) else none
      else
        (parseJNumber (c :: cs1)).map (fun (lit, r) => (Json.num lit, r))

/-- `JSON.parse`: a single JSON value with only whitespace around it. -/
def jsonParse (cs : List Char) : Option Json :=
  match parseJ (cs.length + 1) cs with
  | some (v, rest) => if (skipWs rest).isEmpty then some v else none
  | none => none

/-- Property access on a parsed object: the last duplicate key wins, as in the object
built by `JSON.parse`. -/
def objLookupLast : List (List Char × Json) → List Char → Option Json
  | [], _ => none
  | (k, v) :: rest, key =>
    match objLookupLast rest key with
    | some r => some r
    | none => if k == key then some v else none

/-- Whether a JSON number literal denotes zero (all mantissa digits are 0). -/
def numLitIsZero (lit : List Char) : Bool :=
  (lit.takeWhile (fun c => c != 'e' && c != 'E')).all
    (fun c => c == '0' || c == '-' || c == '.')

/-- JavaScript truthiness of a JSON value: `null`, `false`, `0` and `''` are falsy. -/
def jsTruthy : Json → Bool
  | Json.null => false
  | Json.bool b => b
  | Json.num lit => !(numLitIsZero lit)
  | Json.str s => !s.isEmpty
  | Json.arr _ => true
  | Json.obj _ => true

/-! ## Tool-call extraction (src/agent/parser.ts) -/

/-- `ParsedToolCall` from parser.ts. -/
structure ParsedToolCall where
  name : List Char
  parameters : Json

/-- `ParseResult` from parser.ts. -/
structure ParseResult where
  text : List Char
  toolCalls : List ParsedToolCall

/-- `normalizeToolName` from parser.ts: the fixed synonym table keyed by the lowercased
name; unmapped names are returned unchanged (not lowercased). -/
def normalizeToolName (name : List Char) : List Char :=
  let lower := name.map Char.toLower
  if lower == "readfile".toList || lower == "read-file".toList then "read_file".toList
  else if lower == "writefile".toList || lower == "write-file".toList then "write_file".toList
  else if lower == "editfile".toList || lower == "edit-file".toList then "edit_file".toList
  else name

/-- The guarded extraction `if (parsed.name && typeof parsed.name === 'string')` of
`tryParseToolCall`: requires a truthy — hence non-empty — string `name` property.
(Accessing `.name` on a parsed `null` throws in JavaScript, but that throw is caught by
the same `catch` as a parse failure, so both continue to the next repair stage exactly
like `none` here.) -/
def getNameStr (v : Json) : Option (List Char) :=
  match v with
  | Json.obj fields =>
    match objLookupLast fields "name".toList with
    | some (Json.str s) => if s.isEmpty then none else some s
    | _ => none
  | _ => none

/-- `parsed.parameters || {}` from `tryParseToolCall`. -/
def getParameters (v : Json) : Json :=
  match v with
  | Json.obj fields =>
    match objLookupLast fields "parameters".toList with
    | some p => if jsTruthy p then p else Json.obj []
    | none => Json.obj []
  | _ => Json.obj []

/-- The `return { name: normalizeToolName(parsed.name), parameters: parsed.parameters || {} }`
step shared by all three stages of `tryParseToolCall`. -/
def mkCall (v : Json) : Option ParsedToolCall :=
  match getNameStr v with
  | some n => some { name := normalizeToolName n, parameters := getParameters v }
  | none => none

/-- The content of a single-quoted run for the repair regex
`/'([^'\\]*(?:\\.[^'\\]*)*)'/g`: characters (with backslash escapes kept verbatim) up to
the next unescaped single quote; `none` when the quote never closes. -/
def sqBody : List Char → Option (List Char × List Char)
  | [] => none
  | c :: rest =>
    if c == sQuote then some ([], rest)
    else if c == bSlash then
      match rest with
      | [] => none
      | d :: rest2 => (sqBody rest2).map (fun (content, r) => (c :: (d :: content), r))
    else (sqBody rest).map (fun (content, r) => (c :: content, r))

/-- The global replacement of single-quoted strings by double-quoted ones in
`tryParseToolCall` (`fixed.replace(/'([^'\\]*(?:\\.[^'\\]*)*)'/g, '"$1"')`). -/
def singleQuoteFix : Nat → List Char → List Char
  | 0, cs => cs
  | _ + 1, [] => []
  | fuel + 1, c :: rest =>
    if c == sQuote then
      match sqBody rest with
      | some (content, r) => dQuote :: (content ++ (dQuote :: singleQuoteFix fuel r))
      | none => c :: singleQuoteFix fuel rest
    else c :: singleQuoteFix fuel rest

/-- First occurrence of `sub` in a list: `some (pre, post)` with the scanned list equal
to `pre ++ sub ++ post` (this is `indexOf` plus the split it induces). -/
def splitFirstSub (sub : List Char) : List Char → Option (List Char × List Char)
  | [] => if sub.isPrefixOf ([] : List Char) then some ([], []) else none
  | c :: rest =>
    if sub.isPrefixOf (c :: rest) then some ([], (c :: rest).drop sub.length)
    else (splitFirstSub sub rest).map (fun (pre, post) => (c :: pre, post))

/-- JavaScript `text.replace(sub, '')` with a plain-string pattern: remove the first
occurrence, or return the text unchanged when there is none. -/
def removeFirstSub (cs sub : List Char) : List Char :=
  match splitFirstSub sub cs with
  | some (pre, post) => pre ++ post
  | none => cs

/-- The trailing-garbage repair `fixed.replace(/\}[\s\S]*$/, '}')`: the regex matches
from the first closing brace to the end of the string, so everything from the first
closing brace on is replaced by a single closing brace. -/
def trailingFix (cs : List Char) : List Char :=
  match splitFirstSub [rBrace] cs with
  | some (pre, _) => pre ++ [rBrace]
  | none => cs

/-- `tryParseToolCall` from parser.ts: strict parse, then the single-quote repair, then
the trailing-garbage repair; each stage returns the call only when the parsed value has
a truthy string `name`; otherwise the next stage runs, and `null` results after all
three. -/
def tryParseToolCall (jsonStr : List Char) : Option ParsedToolCall :=
  let stage1 :=
    match jsonParse jsonStr with
    | some v => mkCall v
    | none => none
  match stage1 with
  | some call => some call
  | none =>
    let fixed := singleQuoteFix (jsonStr.length + 1) jsonStr
    let stage2 :=
      match jsonParse fixed with
      | some v => mkCall v
      | none => none
    match stage2 with
    | some call => some call
    | none =>
      match jsonParse (trailingFix fixed) with
      | some v => mkCall v
      | none => none

/-- Whether one of the opening tags `<tool_call>` / `<toolcall>` (the alternatives of
`<tool_?call>`) starts here, and its length. -/
def openTagLen (cs : List Char) : Option Nat :=
  if "<tool_call>".toList.isPrefixOf cs then some 11
  else if "<toolcall>".toList.isPrefixOf cs then some 10
  else none

/-- Whether one of the closing tags starts here, and its length. -/
def closeTagLen (cs : List Char) : Option Nat :=
  if "</tool_call>".toList.isPrefixOf cs then some 12
  else if "</toolcall>".toList.isPrefixOf cs then some 11
  else none

/-- The lazy `[\s\S]*?<\/tool_?call>` of pattern 1: the inner text up to the first
closing tag, plus the input after that tag. -/
def findClose : List Char → Option (List Char × List Char)
  | [] => none
  | c :: rest =>
    match closeTagLen (c :: rest) with
    | some n => some ([], (c :: rest).drop n)
    | none => (findClose rest).map (fun (inner, rem) => (c :: inner, rem))

/-- Pattern 1 of `parseToolCalls` (`/<tool_?call>\s*([\s\S]*?)\s*<\/tool_?call>/g`,
matched left to right without overlap) together with the removal
`text.replace(toolCallRegex, '')`: returns the trimmed inner candidates of all matches
(the `\s*` group boundaries are immaterial because the source trims `match[1]`) and the
response with every matched span deleted.  Fuel decreases once per scanned character or
match; the entry point supplies `length + 1`. -/
def taggedScan : Nat → List Char → List (List Char) × List Char
  | 0, cs => ([], cs)
  | _ + 1, [] => ([], [])
  | fuel + 1, c :: rest =>
    match openTagLen (c :: rest) with
    | some ol =>
      match findClose ((c :: rest).drop ol) with
      | some (inner, rem) =>
        let (cands, txt) := taggedScan fuel rem
        (trimChars inner :: cands, txt)
      | none =>
        let (cands, txt) := taggedScan fuel rest
        (cands, c :: txt)
    | none =>
      let (cands, txt) := taggedScan fuel rest
      (cands, c :: txt)

/-- A single match of pattern 2's fenced-block regex: the full matched span
(`match[0]`), the captured JSON candidate (`match[1]`), and the input after the match. -/
structure P2Match where
  full : List Char
  candidate : List Char
  rest : List Char

/-- The `"name"\s*:\s*"[^"]+` requirement inside pattern 2's capture, tested at one
position. -/
def hasNameKeyAt (cs : List Char) : Bool :=
  if "\"name\"".toList.isPrefixOf cs then
    match (cs.drop 6).dropWhile isJsWs with
    | c :: r2 =>
      if c == ':' then
        match r2.dropWhile isJsWs with
        | d :: r4 =>
          if d == dQuote then
            match r4 with
            | e :: _ => !(e == dQuote)
            | [] => false
          else false
        | [] => false
      else false
    | [] => false
  else false

/-- Whether pattern 2's capture contains a `"name"` key somewhere. -/
def p2HasNamePart : List Char → Bool
  | [] => false
  | c :: rest => hasNameKeyAt (c :: rest) || p2HasNamePart rest

/-- The lazy tail of pattern 2's capture: the first closing brace followed by
`\s*\n?`-style whitespace and a closing fence.  Returns the consumed body (up to and
including that brace), the whitespace before the fence, and the input after the fence. -/
def p2FindClose : List Char → Option (List Char × List Char × List Char)
  | [] => none
  | c :: rest =>
    if c == rBrace then
      if [backTick, backTick, backTick].isPrefixOf (rest.dropWhile isJsWs) then
        some ([c], rest.takeWhile isJsWs, (rest.dropWhile isJsWs).drop 3)
      else (p2FindClose rest).map (fun (body, ws, after) => (c :: body, ws, after))
    else (p2FindClose rest).map (fun (body, ws, after) => (c :: body, ws, after))

/-- One attempt of pattern 2's regex
(`/```(?:json)?\s*\n?\s*(\{[\s\S]*?"name"\s*:\s*"[^"]+[\s\S]*?\})\s*\n?```/g`) at the
current position: an opening fence, an optional `json` tag, whitespace, then a
brace-opened capture that contains a `"name"` string key and ends at the first closing
brace followed by whitespace and a closing fence.  (Matches that would span multiple
fenced blocks are not modelled; no claim depends on them.) -/
def p2At (cs : List Char) : Option P2Match :=
  if [backTick, backTick, backTick].isPrefixOf cs then
    let afterFence := cs.drop 3
    let (jsonTag, rest1) :=
      if ['j', 's', 'o', 'n'].isPrefixOf afterFence then (['j', 's', 'o', 'n'], afterFence.drop 4)
      else (([] : List Char), afterFence)
    let ws1 := rest1.takeWhile isJsWs
    match rest1.dropWhile isJsWs with
    | c :: rest3 =>
      if c == lBrace then
        match p2FindClose rest3 with
        | some (body, ws2, after) =>
          let candidate := c :: body
          if p2HasNamePart candidate then
            some { full := [backTick, backTick, backTick] ++ jsonTag ++ ws1 ++
                     (candidate ++ (ws2 ++ [backTick, backTick, backTick])),
                   candidate := candidate, rest := after }
          else none
        | none => none
      else none
    | [] => none
  else none

/-- The pattern 2 loop of `parseToolCalls`: iterate regex matches over the original
response; for each match that parses into a call, record it and delete the first
occurrence of the matched span from the running narrative text (then trim), exactly as
`text = text.replace(match[0], '').trim()` does. -/
def p2Scan : Nat → List Char → List Char → List ParsedToolCall × List Char
  | 0, _, text => ([], text)
  | _ + 1, [], text => ([], text)
  | fuel + 1, c :: rest, text =>
    match p2At (c :: rest) with
    | some m =>
      match tryParseToolCall (trimChars m.candidate) with
      | some call =>
        let text' := trimChars (removeFirstSub text m.full)
        let (calls, textF) := p2Scan fuel m.rest text'
        (call :: calls, textF)
      | none => p2Scan fuel m.rest text
    | none => p2Scan fuel rest text

/-- The hard-coded tool-name list of pattern 3 in parser.ts. -/
def toolNamesP3 : List (List Char) :=
  ["read_file".toList, "readfile".toList, "read-file".toList,
   "write_file".toList, "writefile".toList, "write-file".toList,
   "edit_file".toList, "editfile".toList, "edit-file".toList,
   "bash".toList, "glob".toList]

/-- `const startPattern = `{"name": "${toolName}"``. -/
def startPatternFor (toolName : List Char) : List Char :=
  lBrace :: ("\"name\": \"".toList ++ (toolName ++ [dQuote]))

/-- The brace-matching loop of pattern 3: a running depth counter over the characters,
incremented at every opening brace and decremented at every closing brace, ending just
after the closing brace that brings the counter to zero.  Returns the consumed span and
the remainder. -/
def findJsonEnd : Int → List Char → Option (List Char × List Char)
  | _, [] => none
  | depth, c :: rest =>
    if c == lBrace then (findJsonEnd (depth + 1) rest).map (fun (con, r) => (c :: con, r))
    else if c == rBrace then
      if depth - 1 == 0 then some ([c], rest)
      else (findJsonEnd (depth - 1) rest).map (fun (con, r) => (c :: con, r))
    else (findJsonEnd depth rest).map (fun (con, r) => (c :: con, r))

/-- One iteration of pattern 3's `for (const toolName of toolNames)` loop: find the
first occurrence of the start pattern in the response, brace-match from there, try to
parse; on success append the call and excise the matched substring from the narrative
text (`text = text.replace(jsonStr, '').trim()`). -/
def p3Step (response : List Char) (acc : List ParsedToolCall × List Char)
    (toolName : List Char) : List ParsedToolCall × List Char :=
  match splitFirstSub (startPatternFor toolName) response with
  | none => acc
  | some (_, post) =>
    match findJsonEnd 0 (startPatternFor toolName ++ post) with
    | none => acc
    | some (jsonStr, _) =>
      match tryParseToolCall jsonStr with
      | some call => (acc.1 ++ [call], trimChars (removeFirstSub acc.2 jsonStr))
      | none => acc

/-- Pattern 3 of `parseToolCalls`, run only when patterns 1 and 2 found nothing. -/
def p3Scan (response text : List Char) : List ParsedToolCall × List Char :=
  toolNamesP3.foldl (p3Step response) ([], text)

/-- Patterns 1 and 2 of `parseToolCalls`: the tagged-block scan (candidates parsed with
`tryParseToolCall`, all matched spans removed from the text, which is then trimmed)
followed by the fenced-block scan over the original response. -/
def parseAB (response : List Char) : List ParsedToolCall × List Char :=
  let (cands, text0) := taggedScan (response.length + 1) response
  let calls1 := cands.filterMap tryParseToolCall
  let (calls2, text2) := p2Scan (response.length + 1) response (trimChars text0)
  (calls1 ++ calls2, text2)

/-- `parseToolCalls` from parser.ts: run patterns 1 and 2; only when they produced zero
tool calls, run the bare-JSON prose scan (pattern 3). -/
def parseToolCalls (response : List Char) : ParseResult :=
  let (calls, text2) := parseAB response
  if calls.length == 0 then
    let (calls3, text3) := p3Scan response text2
    { text := text3, toolCalls := calls3 }
  else { text := text2, toolCalls := calls }

/-! ### Pattern 3: brace matching and excision (claim C4) -/

/-- Running brace balance of a character span: opening braces minus closing braces. -/
def braceDelta (cs : List Char) : Int :=
  (cs.countP (fun c => c == lBrace) : Int) - (cs.countP (fun c => c == rBrace) : Int)

theorem braceDelta_nil : braceDelta [] = 0 := rfl

theorem braceDelta_cons (c : Char) (cs : List Char) :
    braceDelta (c :: cs) =
      (if c == lBrace then 1 else if c == rBrace then -1 else 0) + braceDelta cs := by
  by_cases h1 : (c == lBrace) = true
  · have h2 : (c == rBrace) = false := by
      have := beq_iff_eq.mp h1
      subst this
      decide
    simp [braceDelta, List.countP_cons, h1, h2]
    omega
  · have h1' : (c == lBrace) = false := by
      cases hval : c == lBrace
      · rfl
      · exact absurd hval h1
    by_cases h2 : (c == rBrace) = true
    · simp [braceDelta, List.countP_cons, h1', h2]
      omega
    · have h2' : (c == rBrace) = false := by
        cases hval : c == rBrace
        · rfl
        · exact absurd hval h2
      simp [braceDelta, List.countP_cons, h1', h2']

theorem findJsonEnd_spec :
    ∀ (cs : List Char) (d : Int), 1 ≤ d →
      ∀ con rest, findJsonEnd d cs = some (con, rest) →
        cs = con ++ rest ∧ braceDelta con = -d ∧
        ∀ q r, con = q ++ r → r ≠ [] → braceDelta q > -d := by
  intro cs
  induction cs with
  | nil => intro d _ con rest h; simp [findJsonEnd] at h
  | cons c rest' ih =>
    intro d hd con rest h
    by_cases h1 : (c == lBrace) = true
    · rw [findJsonEnd, if_pos h1] at h
      cases hrec : findJsonEnd (d + 1) rest' with
      | none => rw [hrec] at h; cases h
      | some p =>
        obtain ⟨con', r'⟩ := p
        rw [hrec] at h
        simp only [Option.map_some] at h
        injection h with h
        injection h with hcon hrest
        subst hcon
        subst hrest
        obtain ⟨heq, hdelta, hpref⟩ := ih (d + 1) (by omega) con' r' hrec
        have hbd : ∀ xs, braceDelta (c :: xs) = 1 + braceDelta xs := by
          intro xs
          simp [braceDelta_cons, h1]
        refine ⟨by rw [heq]; rfl, ?_, ?_⟩
        · rw [hbd, hdelta]; omega
        · intro q r hqr hr
          cases q with
          | nil => simp [braceDelta_nil]; omega
          | cons q0 q' =>
            injection hqr with hq0 hq'
            subst hq0
            rw [hbd]
            have := hpref q' r hq' hr
            omega
    · have h1' : (c == lBrace) = false := by
        cases hval : c == lBrace
        · rfl
        · exact absurd hval h1
      by_cases h2 : (c == rBrace) = true
      · rw [findJsonEnd, if_neg h1, if_pos h2] at h
        have hbd : ∀ xs, braceDelta (c :: xs) = -1 + braceDelta xs := by
          intro xs
          simp [braceDelta_cons, h1', h2]
        by_cases hz : (d - 1 == 0) = true
        · rw [if_pos hz] at h
          injection h with h
          injection h with hcon hrest
          subst hcon
          subst hrest
          have hd1 : d = 1 := by
            have := beq_iff_eq.mp hz
            omega
          subst hd1
          refine ⟨rfl, ?_, ?_⟩
          · rw [hbd, braceDelta_nil]; omega
          · intro q r hqr hr
            cases q with
            | nil => simp [braceDelta_nil]
            | cons q0 q' =>
              injection hqr with hq0 hq'
              rcases List.append_eq_nil.mp hq'.symm with ⟨_, hrnil⟩
              exact absurd hrnil hr
        · rw [if_neg hz] at h
          cases hrec : findJsonEnd (d - 1) rest' with
          | none => rw [hrec] at h; cases h
          | some p =>
            obtain ⟨con', r'⟩ := p
            rw [hrec] at h
            simp only [Option.map_some] at h
            injection h with h
            injection h with hcon hrest
            subst hcon
            subst hrest
            have hdge : 1 ≤ d - 1 := by
              have hne : d ≠ 1 := by
                intro hcontra
                subst hcontra
                simp at hz
              omega
            obtain ⟨heq, hdelta, hpref⟩ := ih (d - 1) hdge con' r' hrec
            refine ⟨by rw [heq]; rfl, ?_, ?_⟩
            · rw [hbd, hdelta]; omega
            · intro q r hqr hr
              cases q with
              | nil => simp [braceDelta_nil]; omega
              | cons q0 q' =>
                injection hqr with hq0 hq'
                subst hq0
                rw [hbd]
                have := hpref q' r hq' hr
                omega
      · have h2' : (c == rBrace) = false := by
          cases hval : c == rBrace
          · rfl
          · exact absurd hval h2
        rw [findJsonEnd, if_neg h1, if_neg h2] at h
        have hbd : ∀ xs, braceDelta (c :: xs) = 0 + braceDelta xs := by
          intro xs
          simp [braceDelta_cons, h1', h2']
        cases hrec : findJsonEnd d rest' with
        | none => rw [hrec] at h; cases h
        | some p =>
          obtain ⟨con', r'⟩ := p
          rw [hrec] at h
          simp only [Option.map_some] at h
          injection h with h
          injection h with hcon hrest
          subst hcon
          subst hrest
          obtain ⟨heq, hdelta, hpref⟩ := ih d hd con' r' hrec
          refine ⟨by rw [heq]; rfl, ?_, ?_⟩
          · rw [hbd, hdelta]; omega
          · intro q r hqr hr
            cases q with
            | nil => simp [braceDelta_nil]; omega
            | cons q0 q' =>
              injection hqr with hq0 hq'
              subst hq0
              rw [hbd]
              have := hpref q' r hq' hr
              omega

theorem splitFirstSub_spec (sub : List Char) :
    ∀ cs pre post, splitFirstSub sub cs = some (pre, post) → cs = pre ++ sub ++ post := by
  intro cs
  induction cs with
  | nil =>
    intro pre post h
    rw [splitFirstSub] at h
    by_cases hp : sub.isPrefixOf ([] : List Char) = true
    · rw [if_pos hp] at h
      have hsub : sub = [] := List.prefix_nil.mp (List.isPrefixOf_iff_prefix.mp hp)
      injection h with h
      injection h with hpre hpost
      subst hsub
      rw [← hpre, ← hpost]
      rfl
    · rw [if_neg hp] at h
      cases h
  | cons c rest ih =>
    intro pre post h
    rw [splitFirstSub] at h
    by_cases hp : sub.isPrefixOf (c :: rest) = true
    · rw [if_pos hp] at h
      injection h with h
      injection h with hpre hpost
      obtain ⟨tail, htail⟩ := List.isPrefixOf_iff_prefix.mp hp
      have hpost' : tail = post := by
        rw [← hpost, ← htail, List.drop_left]
      rw [← hpre, ← hpost', ← htail]
      simp
    · rw [if_neg hp] at h
      cases hrec : splitFirstSub sub rest with
      | none => rw [hrec] at h; cases h
      | some q =>
        obtain ⟨pre', post'⟩ := q
        rw [hrec] at h
        simp only [Option.map_some] at h
        injection h with h
        injection h with hpre hpost
        rw [← hpre, ← hpost, ih pre' post' hrec]
        rfl

theorem splitFirstSub_none_mono (sub1 sub2 : List Char) (hpre : sub1 <+: sub2) :
    ∀ cs, splitFirstSub sub1 cs = none → splitFirstSub sub2 cs = none := by
  intro cs
  induction cs with
  | nil =>
    intro h
    rw [splitFirstSub] at h ⊢
    by_cases hp : sub2.isPrefixOf ([] : List Char) = true
    · have hs2 : sub2 = [] := List.prefix_nil.mp (List.isPrefixOf_iff_prefix.mp hp)
      have hs1 : sub1 = [] := List.prefix_nil.mp (by rw [hs2] at hpre; exact hpre)
      rw [if_pos (by rw [hs1]; decide)] at h
      cases h
    · rw [if_neg hp]
  | cons c rest ih =>
    intro h
    rw [splitFirstSub] at h ⊢
    by_cases hp1 : sub1.isPrefixOf (c :: rest) = true
    · rw [if_pos hp1] at h; cases h
    · rw [if_neg hp1] at h
      by_cases hp2 : sub2.isPrefixOf (c :: rest) = true
      · have : sub1.isPrefixOf (c :: rest) = true := by
          rw [List.isPrefixOf_iff_prefix]
          exact hpre.trans (List.isPrefixOf_iff_prefix.mp hp2)
        exact absurd this hp1
      · rw [if_neg hp2]
        cases hrec : splitFirstSub sub1 rest with
        | none => rw [ih hrec]; rfl
        | some q => rw [hrec] at h; simp at h

/-- C4: in `parseToolCalls`, the bare-JSON prose scan (pattern c) runs only when the
tagged-block and fenced-code-block patterns found zero tool calls (first two conjuncts:
with a non-zero count the result is exactly the pattern-a/b result, and with a zero
count it is exactly the pattern-c continuation); when pattern c matches, the end of the
JSON object is found by the running brace-depth counter, which handles nested braces:
the consumed span is brace-balanced and every proper non-empty prefix keeps a strictly
positive balance (third conjunct); `indexOf` yields a genuine first-occurrence split
(fourth conjunct); and a successfully parsed match is excised from the returned
narrative text via first-occurrence removal of the matched substring, then trimmed
(fifth conjunct). -/
theorem parseToolCalls_patternC_spec :
    (∀ response : List Char, ((parseAB response).1.length == 0) = false →
      parseToolCalls response =
        { text := (parseAB response).2, toolCalls := (parseAB response).1 }) ∧
    (∀ response : List Char, ((parseAB response).1.length == 0) = true →
      parseToolCalls response =
        { text := (p3Scan response (parseAB response).2).2,
          toolCalls := (p3Scan response (parseAB response).2).1 }) ∧
    (∀ cs con rest, findJsonEnd 0 (lBrace :: cs) = some (con, rest) →
      lBrace :: cs = con ++ rest ∧ braceDelta con = 0 ∧
      ∀ q r, con = q ++ r → q ≠ [] → r ≠ [] → braceDelta q > 0) ∧
    (∀ sub cs pre post, splitFirstSub sub cs = some (pre, post) →
      cs = pre ++ sub ++ post) ∧
    (∀ response text toolName pre post jsonStr rem call,
      splitFirstSub (startPatternFor toolName) response = some (pre, post) →
      findJsonEnd 0 (startPatternFor toolName ++ post) = some (jsonStr, rem) →
      tryParseToolCall jsonStr = some call →
      ∀ calls, p3Step response (calls, text) toolName =
        (calls ++ [call], trimChars (removeFirstSub text jsonStr))) := by
  refine ⟨?_, ?_, ?_, ?_, ?_⟩
  · intro response h
    rcases hab : parseAB response with ⟨calls, text2⟩
    rw [hab] at h
    rw [parseToolCalls, hab]
    simp [h]
  · intro response h
    rcases hab : parseAB response with ⟨calls, text2⟩
    rw [hab] at h
    rw [parseToolCalls, hab]
    rcases hp3 : p3Scan response text2 with ⟨calls3, text3⟩
    simp [h, hp3]
  · intro cs con rest h
    rw [findJsonEnd] at h
    rw [if_pos (show (lBrace == lBrace) = true from rfl)] at h
    cases hrec : findJsonEnd (0 + 1) cs with
    | none => rw [hrec] at h; cases h
    | some p =>
      obtain ⟨con', r'⟩ := p
      rw [hrec] at h
      simp only [Option.map_some] at h
      injection h with h
      injection h with hcon hrest
      subst hcon
      subst hrest
      obtain ⟨heq, hdelta, hpref⟩ := findJsonEnd_spec cs (0 + 1) (by omega) con' r' hrec
      have hbd : ∀ xs, braceDelta (lBrace :: xs) = 1 + braceDelta xs := by
        intro xs
        simp [braceDelta_cons]
      refine ⟨by rw [heq]; rfl, by rw [hbd, hdelta]; omega, ?_⟩
      intro q r hqr hq0 hr
      cases q with
      | nil => exact absurd rfl hq0
      | cons q0 q' =>
        injection hqr with hq0' hq'
        subst hq0'
        rw [hbd]
        have := hpref q' r hq' hr
        omega
  · exact fun sub => splitFirstSub_spec sub
  · intro response text toolName pre post jsonStr rem call h1 h2 h3 calls
    simp only [p3Step, h1, h2, h3]

/-- A concrete pattern-3 response: bare JSON in prose, with nested braces (an object
parameter and a brace pair inside a string). -/
def c4RespBare : List Char :=
  "ok \x7b\"name\": \"bash\", \"parameters\": \x7b\"command\": \"ls\"\x7d\x7d end".toList

/-- A concrete tagged response for the pattern-c gate. -/
def c4RespTagged : List Char :=
  "<tool_call>\x7b\"name\": \"bash\", \"parameters\": \x7b\x7d\x7d</tool_call>".toList

/-- A nested-brace span for the brace-counter conjunct (without its leading brace). -/
def c4Nest : List Char := "\"a\": \x7b\"b\": \x7b\x7d\x7d\x7d tail".toList

/-- The span the brace counter consumes on `lBrace :: c4Nest`. -/
def c4NestCon : List Char := "\x7b\"a\": \x7b\"b\": \x7b\x7d\x7d\x7d".toList

/-- Witness for C4: the tagged response makes patterns a/b find a call, so the result is
exactly their result (pattern c skipped); and on the nested-brace input the counter
consumes exactly the balanced span. -/
theorem parseToolCalls_patternC_spec_witness :
    ((parseAB c4RespTagged).1.length == 0) = false ∧
    parseToolCalls c4RespTagged =
      { text := (parseAB c4RespTagged).2, toolCalls := (parseAB c4RespTagged).1 } ∧
    lBrace :: c4Nest = c4NestCon ++ " tail".toList ∧
    braceDelta c4NestCon = 0 := by
  refine ⟨rfl, parseToolCalls_patternC_spec.1 c4RespTagged rfl, ?_, ?_⟩
  · exact (parseToolCalls_patternC_spec.2.2.1 c4Nest c4NestCon (" tail".toList) rfl).1
  · exact (parseToolCalls_patternC_spec.2.2.1 c4Nest c4NestCon (" tail".toList) rfl).2.1

/-! ### Pattern 1 on a single well-formed tagged block (claim C5) -/

theorem taggedScan_nil : ∀ fuel, taggedScan fuel [] = ([], []) := by
  intro fuel
  cases fuel with
  | zero => rfl
  | succ f => rfl

theorem taggedScan_skip (X : List Char) :
    ∀ (pre : List Char) (fuel : Nat),
      (∀ k, k < pre.length → openTagLen (List.drop k (pre ++ X)) = none) →
      taggedScan (pre.length + fuel) (pre ++ X) =
        ((taggedScan fuel X).1, pre ++ (taggedScan fuel X).2) := by
  intro pre
  induction pre with
  | nil =>
    intro fuel h
    simp
  | cons c pre' ih =>
    intro fuel h
    have h0 : openTagLen (c :: (pre' ++ X)) = none := by
      have := h 0 (by simp)
      simpa using this
    have h' : ∀ k, k < pre'.length → openTagLen (List.drop k (pre' ++ X)) = none := by
      intro k hk
      have := h (k + 1) (by simp; omega)
      simpa using this
    have harith : (c :: pre').length + fuel = (pre'.length + fuel) + 1 := by
      simp [List.length_cons]
      omega
    rw [harith]
    show taggedScan ((pre'.length + fuel) + 1) (c :: (pre' ++ X)) = _
    simp only [taggedScan, h0]
    rw [ih fuel h']
    rfl

theorem findClose_append (j : List Char) :
    ∀ (tail : List Char) (n : Nat),
      (∀ k, k < j.length → closeTagLen (List.drop k (j ++ tail)) = none) →
      closeTagLen tail = some n →
      findClose (j ++ tail) = some (j, tail.drop n) := by
  induction j with
  | nil =>
    intro tail n _ hct
    cases tail with
    | nil =>
      rw [show closeTagLen ([] : List Char) = none from rfl] at hct
      cases hct
    | cons t ts =>
      show findClose (t :: ts) = _
      simp only [findClose, hct]
  | cons c j' ih =>
    intro tail n h hct
    have h0 : closeTagLen (c :: (j' ++ tail)) = none := by
      have := h 0 (by simp)
      simpa using this
    have h' : ∀ k, k < j'.length → closeTagLen (List.drop k (j' ++ tail)) = none := by
      intro k hk
      have := h (k + 1) (by simp; omega)
      simpa using this
    show findClose (c :: (j' ++ tail)) = _
    simp only [findClose, h0]
    rw [ih tail n h' hct]
    rfl

theorem taggedScan_cons_open (fuel ol : Nat) (c : Char) (rest inner rem : List Char)
    (hol : openTagLen (c :: rest) = some ol)
    (hfc : findClose ((c :: rest).drop ol) = some (inner, rem)) :
    taggedScan (fuel + 1) (c :: rest) =
      (trimChars inner :: (taggedScan fuel rem).1, (taggedScan fuel rem).2) := by
  simp only [taggedScan, hol, hfc]

theorem taggedScan_block (j post : List Char) (fuel : Nat)
    (hnc : ∀ k, k < j.length →
      closeTagLen (List.drop k (j ++ ("</tool_call>".toList ++ post))) = none) :
    taggedScan (fuel + 1)
        ("<tool_call>".toList ++ (j ++ ("</tool_call>".toList ++ post))) =
      (trimChars j :: (taggedScan fuel post).1, (taggedScan fuel post).2) := by
  have hopen : openTagLen
      ("<tool_call>".toList ++ (j ++ ("</tool_call>".toList ++ post))) = some 11 := by
    rw [openTagLen, if_pos (List.isPrefixOf_iff_prefix.mpr ⟨_, rfl⟩)]
  have hclose : closeTagLen ("</tool_call>".toList ++ post) = some 12 := by
    rw [closeTagLen, if_pos (List.isPrefixOf_iff_prefix.mpr ⟨_, rfl⟩)]
  have hfc : findClose
      (("<tool_call>".toList ++ (j ++ ("</tool_call>".toList ++ post))).drop 11) =
      some (j, post) := by
    show findClose (j ++ ("</tool_call>".toList ++ post)) = _
    rw [findClose_append j ("</tool_call>".toList ++ post) 12 hnc hclose]
    rfl
  exact taggedScan_cons_open fuel 11 _ _ j post hopen hfc

theorem taggedScan_no_open (post : List Char) (fuel : Nat)
    (h : ∀ k, openTagLen (List.drop k post) = none) :
    taggedScan (post.length + fuel) post = ([], post) := by
  have hcond : ∀ k, k < post.length → openTagLen (List.drop k (post ++ [])) = none := by
    intro k _
    rw [List.append_nil]
    exact h k
  have := taggedScan_skip [] post fuel hcond
  rw [List.append_nil] at this
  rw [this, taggedScan_nil]
  simp

theorem openTagLen_drop_none_of_bounded (cs : List Char)
    (h : ∀ k, k < cs.length → openTagLen (cs.drop k) = none) :
    ∀ k, openTagLen (cs.drop k) = none := by
  intro k
  by_cases hk : k < cs.length
  · exact h k hk
  · rw [List.drop_eq_nil_of_le (by omega)]
    rfl

theorem p2Scan_no_backtick :
    ∀ (fuel : Nat) (cs text : List Char),
      cs.all (fun c => !(c == backTick)) = true → p2Scan fuel cs text = ([], text) := by
  intro fuel
  induction fuel with
  | zero => intro cs text _; rfl
  | succ f ih =>
    intro cs text hall
    cases cs with
    | nil => rfl
    | cons c rest =>
      rw [List.all_cons, Bool.and_eq_true] at hall
      have hc : (c == backTick) = false := by
        cases hval : c == backTick
        · rfl
        · rw [hval] at hall; simp at hall
      have hbc : (backTick == c) = false := by
        rw [beq_eq_false_iff_ne] at hc ⊢
        exact fun he => hc he.symm
      have hp2 : p2At (c :: rest) = none := by
        rw [p2At, if_neg ?_]
        show ¬([backTick, backTick, backTick].isPrefixOf (c :: rest)) = true
        rw [List.isPrefixOf, hbc]
        simp
      show p2Scan (f + 1) (c :: rest) text = ([], text)
      simp only [p2Scan, hp2]
      exact ih rest text hall.2

/-- The common prefix `{"name": "` of every pattern-3 start pattern. -/
def p3BasePat : List Char := lBrace :: "\"name\": \"".toList

theorem p3Scan_none (response text : List Char)
    (h : splitFirstSub p3BasePat response = none) :
    p3Scan response text = ([], text) := by
  have hstep : ∀ (acc : List ParsedToolCall × List Char) (tn : List Char),
      p3Step response acc tn = acc := by
    intro acc tn
    have hpre : p3BasePat <+: startPatternFor tn := ⟨tn ++ [dQuote], rfl⟩
    have hnone := splitFirstSub_none_mono p3BasePat (startPatternFor tn) hpre response h
    simp [p3Step, hnone]
  simp [p3Scan, toolNamesP3, List.foldl, hstep]

/-- A single tagged block whose JSON carries the synonym name `readfile`. -/
def c5Resp : List Char :=
  "<tool_call>\x7b\"name\": \"readfile\", \"parameters\": \x7b\x7d\x7d</tool_call>".toList

/-- The JSON text embedded in `c5Resp`. -/
def c5Inner : List Char :=
  "\x7b\"name\": \"readfile\", \"parameters\": \x7b\x7d\x7d".toList

/-- Counterexample for C5 as stated: on a single well-formed tagged block whose JSON
object has the string name field `"readfile"`, `parseToolCalls` yields one invocation
whose name is the normalized `"read_file"` — not equal to the embedded JSON's name
(and an embedded empty-string name would be discarded entirely, since the guard also
requires the name to be truthy). -/
theorem parseToolCalls_roundTrip_counterexample :
    jsonParse c5Inner =
      some (Json.obj [("name".toList, Json.str "readfile".toList),
        ("parameters".toList, Json.obj [])]) ∧
    (parseToolCalls c5Resp).toolCalls =
      [{ name := "read_file".toList, parameters := Json.obj [] }] ∧
    "read_file".toList ≠ "readfile".toList := by
  refine ⟨rfl, rfl, by decide⟩

/-- C5 (amended): for every model output that is narrative text around a single
well-formed tagged tool-call block — no other opening tag, no close tag inside the
block, no fenced code block (no backtick) — whose JSON parses with a truthy (non-empty)
string `name` field, `parseToolCalls` yields exactly one invocation whose name is the
synonym-normalized embedded name (identical for canonical names) and whose parameters
are the embedded `parameters` (defaulting to the empty object when absent or falsy),
with the block excised from the returned narrative; and when the candidate fails to
parse even after repair, or parses without a truthy string name, it is silently
discarded: no invocation is produced, yet the narrative text around the excised block is
still returned rather than an error being raised (provided the prose contains no
bare-JSON `{"name": "` start pattern for pattern c to pick up). -/
theorem parseToolCalls_tagged_spec
    (response pre j post : List Char)
    (hR : response = pre ++ ("<tool_call>".toList ++ (j ++ ("</tool_call>".toList ++ post))))
    (hpre : ∀ k, k < pre.length → openTagLen (List.drop k response) = none)
    (hj : ∀ k, k < j.length →
      closeTagLen (List.drop k (j ++ ("</tool_call>".toList ++ post))) = none)
    (hpost : ∀ k, openTagLen (List.drop k post) = none)
    (hbt : response.all (fun c => !(c == backTick)) = true) :
    (∀ v n, jsonParse (trimChars j) = some v → getNameStr v = some n →
      parseToolCalls response =
        { text := trimChars (pre ++ post),
          toolCalls := [{ name := normalizeToolName n, parameters := getParameters v }] }) ∧
    (tryParseToolCall (trimChars j) = none →
      splitFirstSub p3BasePat response = none →
      parseToolCalls response = { text := trimChars (pre ++ post), toolCalls := [] }) := by
  have hts : taggedScan (response.length + 1) response = ([trimChars j], pre ++ post) := by
    subst hR
    have hlen : (pre ++ ("<tool_call>".toList ++ (j ++ ("</tool_call>".toList ++ post)))).length + 1 =
        pre.length + (("<tool_call>".toList ++ (j ++ ("</tool_call>".toList ++ post))).length + 1) := by
      simp [List.length_append]
      omega
    rw [hlen]
    rw [taggedScan_skip ("<tool_call>".toList ++ (j ++ ("</tool_call>".toList ++ post))) pre
      (("<tool_call>".toList ++ (j ++ ("</tool_call>".toList ++ post))).length + 1) hpre]
    rw [taggedScan_block j post
      ("<tool_call>".toList ++ (j ++ ("</tool_call>".toList ++ post))).length hj]
    have hlen2 : ("<tool_call>".toList ++ (j ++ ("</tool_call>".toList ++ post))).length =
        post.length + (j.length + 23) := by
      simp [List.length_append]
      omega
    rw [hlen2, taggedScan_no_open post (j.length + 23) hpost]
  constructor
  · intro v n hv hn
    have hcall : tryParseToolCall (trimChars j) =
        some (ParsedToolCall.mk (normalizeToolName n) (getParameters v)) := by
      rw [tryParseToolCall]
      simp [hv, mkCall, hn]
    have hAB : parseAB response =
        ([ParsedToolCall.mk (normalizeToolName n) (getParameters v)],
          trimChars (pre ++ post)) := by
      rw [parseAB, hts]
      simp [hcall, p2Scan_no_backtick (response.length + 1) response _ hbt]
    rw [parseToolCalls, hAB]
    simp
  · intro hnone hp3
    have hAB : parseAB response = ([], trimChars (pre ++ post)) := by
      rw [parseAB, hts]
      simp [hnone, p2Scan_no_backtick (response.length + 1) response _ hbt]
    rw [parseToolCalls, hAB]
    simp [p3Scan_none response (trimChars (pre ++ post)) hp3]

/-- Concrete narrative and block pieces for the C5 witness. -/
def c5Pre : List Char := "Sure: ".toList

def c5Post : List Char := " Done.".toList

def c5InnerBash : List Char := "\x7b\"name\": \"bash\", \"parameters\": \x7b\x7d\x7d".toList

def c5RespW : List Char :=
  c5Pre ++ ("<tool_call>".toList ++ (c5InnerBash ++ ("</tool_call>".toList ++ c5Post)))

def c5Val : Json :=
  Json.obj [("name".toList, Json.str "bash".toList), ("parameters".toList, Json.obj [])]

/-- Witness for C5 (amended): on concrete narrative text around a tagged `bash` call,
extraction returns exactly that call and the surrounding narrative. -/
theorem parseToolCalls_tagged_spec_witness :
    parseToolCalls c5RespW =
      { text := trimChars (c5Pre ++ c5Post),
        toolCalls := [{ name := normalizeToolName "bash".toList, parameters := getParameters c5Val }] } := by
  exact (parseToolCalls_tagged_spec c5RespW c5Pre c5InnerBash c5Post rfl
    (by decide) (by decide) (openTagLen_drop_none_of_bounded c5Post (by decide))
    (by decide)).1 c5Val ("bash".toList) rfl rfl

/-! ## Conversation context and agent loop (src/agent/context.ts, src/agent/agent.ts,
src/tools/base.ts, src/tools/index.ts) -/

/-- Message roles from providers/base.ts. -/
inductive Role where
  | system
  | user
  | assistant
  | tool
deriving DecidableEq, Repr

/-- `Message` from providers/base.ts (`toolCallId` is never set by the core). -/
structure Message where
  role : Role
  content : List Char
deriving DecidableEq, Repr

/-- `ChatResponse` from providers/base.ts. -/
structure ChatResponse where
  content : List Char
  finishReason : Option (List Char)

/-- The provider's `chat` call as an oracle: the model's reply, or a thrown error. -/
def Provider : Type := List Message → Except (List Char) ChatResponse

/-- `ToolResult` from tools/base.ts. -/
structure ToolResult where
  success : Bool
  output : List Char
  error : Option (List Char)

/-- `ToolContext` from tools/base.ts. -/
structure ToolContext where
  workingDirectory : List Char

/-- `ToolParameter` from tools/base.ts (`type` kept as its literal string). -/
structure ToolParameter where
  type : List Char
  description : List Char
  required : Option Bool

/-- `ToolDefinition` from tools/base.ts. -/
structure ToolDefinition where
  name : List Char
  description : List Char
  parameters : List (List Char × ToolParameter)

/-- A registered tool: its definition plus its `execute` behaviour as an oracle
(the file/shell side effects are external to the core). -/
structure Tool where
  definition : ToolDefinition
  execute : Json → ToolContext → ToolResult

/-- `addSystemMessage` from context.ts: replace the existing system message in place, or
prepend a new one. -/
def addSystemMessage (msgs : List Message) (content : List Char) : List Message :=
  match msgs.findIdx? (fun m => m.role == Role.system) with
  | some i => msgs.set i ⟨Role.system, content⟩
  | none => ⟨Role.system, content⟩ :: msgs

/-- `getToolByName` from tools/index.ts: `tools.find(t => t.definition.name === name)`. -/
def getToolByName (tools : List Tool) (name : List Char) : Option Tool :=
  tools.find? (fun t => t.definition.name == name)

/-- `formatToolResult` from parser.ts. -/
def formatToolResult (toolName : List Char) (result : ToolResult) : List Char :=
  if result.success then
    "<tool_result name=".toList ++ [dQuote] ++ toolName ++ [dQuote] ++ ">\n".toList ++
      result.output ++ "\n</tool_result>".toList
  else
    let errText :=
      match result.error with
      | some e => if e.isEmpty then "Unknown error".toList else e
      | none => "Unknown error".toList
    "<tool_result name=".toList ++ [dQuote] ++ toolName ++ [dQuote] ++ " error=".toList ++
      [dQuote] ++ "true".toList ++ [dQuote] ++ ">\n".toList ++ errText ++
      "\n</tool_result>".toList

/-- JavaScript `Array.prototype.join`. -/
def joinWith (sep : List Char) : List (List Char) → List Char
  | [] => []
  | [x] => x
  | x :: xs => x ++ (sep ++ joinWith sep xs)

/-- `formatToolsForPrompt` from tools/base.ts (the tool catalogue text). -/
def formatToolsForPrompt (tools : List Tool) : List Char :=
  let toolDescriptions := tools.map fun tool =>
    let params := joinWith "\n".toList ((tool.definition.parameters).map fun pr =>
      "    - ".toList ++ pr.1 ++ ": ".toList ++ pr.2.type ++
        (if pr.2.required ≠ some false then " (required)".toList else []) ++
        " - ".toList ++ pr.2.description)
    "- ".toList ++ tool.definition.name ++ ": ".toList ++ tool.definition.description ++
      "\n  Parameters:\n".toList ++ params
  "YOU HAVE ACCESS TO THESE TOOLS - USE THEM:\n".toList ++
    joinWith "\n\n".toList toolDescriptions ++
    "\n\nHOW TO USE TOOLS:\nOutput a tool call like this (the system will execute it):\n<tool_call>\n\x7b\"name\": \"write_file\", \"parameters\": \x7b\"path\": \"game.py\", \"content\": \"import curses\\\\n...\"\x7d\x7d\n</tool_call>\n\nEXAMPLE - Creating a Python file:\n<tool_call>\n\x7b\"name\": \"write_file\", \"parameters\": \x7b\"path\": \"hello.py\", \"content\": \"print(".toList ++
    [sQuote] ++ "Hello World!".toList ++ [sQuote] ++
    ")\"\x7d\x7d\n</tool_call>\n\nYOU CAN CREATE FILES. YOU CAN RUN COMMANDS. USE THE TOOLS ABOVE.\nDo NOT say you cannot create files - use write_file instead.\nDo NOT put code in markdown blocks - use write_file to save it.".toList

/-- `buildSystemPrompt` from agent.ts. -/
def buildSystemPrompt (tools : List Tool) (workingDirectory : List Char)
    (planMode : Bool) : List Char :=
  let toolsPrompt := formatToolsForPrompt tools
  let base :=
    "You are OpenCoder, an AI coding assistant running in a terminal.\n\nCurrent working directory: ".toList ++
    workingDirectory ++
    "\nPlatform: macOS (use python3, not python)\n\n".toList ++
    toolsPrompt ++
    "\n\nCRITICAL RULES:\n1. When asked to implement/create/write code, you MUST use write_file tool - do NOT just show code in text\n2. NEVER show code in markdown blocks when you should be writing files\n3. If user asks to \"implement\", \"create\", \"make\", or \"write\" something, USE THE TOOLS\n4. If you encounter an error, REPORT it - do NOT try to auto-fix\n\nHOW TO USE TOOLS - wrap tool calls in <tool_call> tags:\n<tool_call>\x7b\"name\": \"write_file\", \"parameters\": \x7b\"path\": \"example.py\", \"content\": \"print(".toList ++
    [sQuote] ++ "hello".toList ++ [sQuote] ++
    ")\"\x7d\x7d</tool_call>\n\nGuidelines:\n- Use write_file to create files, read_file to read, bash to run commands\n- Be concise in responses\n- Always read a file before editing it".toList
  if planMode then
    base ++ "\n\nPLAN MODE ACTIVE: You are in read-only planning mode.\n- Do NOT use write_file, edit_file, or bash commands that modify files\n- Focus on exploring the codebase and designing an approach\n- Use read_file and glob to understand the code structure".toList
  else base

/-- The per-invocation dispatch inside `Agent.run`: an unknown tool name is turned into
a synthesized failure result (`Unknown tool: <name>`) instead of aborting; a known tool
is executed and its result formatted, whether it succeeded or failed.  (The optional
`onToolCall` / `onToolResult` notifications are observability only and carry no state.) -/
def dispatchToolCall (tools : List Tool) (ctx : ToolContext) (tc : ParsedToolCall) :
    List Char :=
  match getToolByName tools tc.name with
  | none =>
    formatToolResult tc.name
      { success := false, output := [], error := some ("Unknown tool: ".toList ++ tc.name) }
  | some tool => formatToolResult tc.name (tool.execute tc.parameters ctx)

/-- `toolResults.join('\n\n')`. -/
def joinBlocks (blocks : List (List Char)) : List Char :=
  joinWith "\n\n".toList blocks

/-- `MAX_TOOL_ITERATIONS` from agent.ts. -/
def MAX_TOOL_ITERATIONS : Nat := 20

/-- The `while (iteration < MAX_TOOL_ITERATIONS)` loop of `Agent.run`: one provider call
per iteration; a provider error propagates; a completion without tool calls appends the
assistant message and returns `finalResponse || response.content`; otherwise every
invocation is dispatched in order, the assistant message and a single user-role message
with all result blocks are appended, and the loop continues; exhausted fuel returns the
best narrative seen or the generic did-not-finish message. -/
def runLoop (provider : Provider) (tools : List Tool) (toolCtx : ToolContext) :
    Nat → List Message → List Char → Except (List Char) (List Message × List Char)
  | 0, msgs, finalResponse =>
    Except.ok (msgs,
      if finalResponse.isEmpty then
        "I was unable to complete the task within the maximum number of steps.".toList
      else finalResponse)
  | fuel + 1, msgs, finalResponse =>
    match provider msgs with
    | Except.error e => Except.error e
    | Except.ok resp =>
      let pr := parseToolCalls resp.content
      let final1 := if pr.text.isEmpty then finalResponse else pr.text
      if pr.toolCalls.isEmpty then
        Except.ok (msgs ++ [⟨Role.assistant, resp.content⟩],
          if final1.isEmpty then resp.content else final1)
      else
        let results := pr.toolCalls.map (dispatchToolCall tools toolCtx)
        runLoop provider tools toolCtx fuel
          ((msgs ++ [⟨Role.assistant, resp.content⟩]) ++ [⟨Role.user, joinBlocks results⟩])
          final1

/-- `Agent.run` from agent.ts: rebuild and install the system prompt, append the user
message, and run the loop with the fixed iteration bound.  Returns the final message
log (the mutated context) and the returned text. -/
def Agent.run (provider : Provider) (tools : List Tool) (workingDirectory : List Char)
    (planMode : Bool) (messages : List Message) (userMessage : List Char) :
    Except (List Char) (List Message × List Char) :=
  let msgs1 := addSystemMessage messages (buildSystemPrompt tools workingDirectory planMode)
  let msgs2 := msgs1 ++ [⟨Role.user, userMessage⟩]
  runLoop provider tools ⟨workingDirectory⟩ MAX_TOOL_ITERATIONS msgs2 []

/-- The number of provider `chat` calls `runLoop` makes, mirroring its recursion. -/
def runLoopCalls (provider : Provider) (tools : List Tool) (toolCtx : ToolContext) :
    Nat → List Message → List Char → Nat
  | 0, _, _ => 0
  | fuel + 1, msgs, finalResponse =>
    match provider msgs with
    | Except.error _ => 1
    | Except.ok resp =>
      let pr := parseToolCalls resp.content
      let final1 := if pr.text.isEmpty then finalResponse else pr.text
      if pr.toolCalls.isEmpty then 1
      else
        let results := pr.toolCalls.map (dispatchToolCall tools toolCtx)
        1 + runLoopCalls provider tools toolCtx fuel
          ((msgs ++ [⟨Role.assistant, resp.content⟩]) ++ [⟨Role.user, joinBlocks results⟩])
          final1

/-- C6: in `Agent.run`'s loop, an invocation whose name matches no registered tool
produces a synthesized failure tool-result (`Unknown tool: <name>`) and dispatch simply
moves on to the remaining invocations (first conjunct — dispatch is a total function
applied to every parsed invocation in order); a tool whose `execute` reports failure
likewise yields a formatted (failure) result block rather than aborting (second
conjunct); when a completion contains tool calls the loop always continues, appending
the assistant message and a user message holding all collected result blocks as input
for the next turn (fourth conjunct); whereas a provider `chat` failure propagates as an
error that aborts the whole run (third conjunct). -/
theorem agentRun_failure_spec (provider : Provider) (tools : List Tool) (ctx : ToolContext) :
    (∀ n ps, getToolByName tools n = none →
      dispatchToolCall tools ctx ⟨n, ps⟩ =
        formatToolResult n
          { success := false, output := [], error := some ("Unknown tool: ".toList ++ n) }) ∧
    (∀ n ps tool, getToolByName tools n = some tool →
      dispatchToolCall tools ctx ⟨n, ps⟩ = formatToolResult n (tool.execute ps ctx)) ∧
    (∀ fuel msgs fr e, provider msgs = Except.error e →
      runLoop provider tools ctx (fuel + 1) msgs fr = Except.error e) ∧
    (∀ fuel msgs fr resp, provider msgs = Except.ok resp →
      (parseToolCalls resp.content).toolCalls.isEmpty = false →
      runLoop provider tools ctx (fuel + 1) msgs fr =
        runLoop provider tools ctx fuel
          ((msgs ++ [⟨Role.assistant, resp.content⟩]) ++
            [⟨Role.user, joinBlocks ((parseToolCalls resp.content).toolCalls.map
              (dispatchToolCall tools ctx))⟩])
          (if (parseToolCalls resp.content).text.isEmpty then fr
            else (parseToolCalls resp.content).text)) := by
  refine ⟨?_, ?_, ?_, ?_⟩
  · intro n ps h
    simp [dispatchToolCall, h]
  · intro n ps tool h
    simp [dispatchToolCall, h]
  · intro fuel msgs fr e h
    simp only [runLoop, h]
  · intro fuel msgs fr resp h hne
    simp only [runLoop, h, hne]
    rfl

/-- A provider oracle that always fails. -/
def provFail : Provider := fun _ => Except.error "connection refused".toList

/-- A provider oracle that always replies with a tagged `bash` tool call. -/
def provBash : Provider := fun _ => Except.ok ⟨c5Resp, none⟩

/-- Witness for C6: with no registered tools, the `bash` invocation produces the
synthesized unknown-tool failure result, and a failing provider aborts the loop with
its error. -/
theorem agentRun_failure_spec_witness :
    dispatchToolCall [] ⟨"/repo".toList⟩ ⟨"bash".toList, Json.obj []⟩ =
      formatToolResult "bash".toList
        { success := false, output := [],
          error := some ("Unknown tool: ".toList ++ "bash".toList) } ∧
    runLoop provFail [] ⟨"/repo".toList⟩ 3 [] [] =
      Except.error "connection refused".toList := by
  refine ⟨?_, ?_⟩
  · exact (agentRun_failure_spec provFail [] ⟨"/repo".toList⟩).1 "bash".toList (Json.obj []) rfl
  · exact (agentRun_failure_spec provFail [] ⟨"/repo".toList⟩).2.2.1 2 [] []
      "connection refused".toList rfl

/-- C9: `Agent.run` iterates at most the fixed bound `MAX_TOOL_ITERATIONS = 20` of
provider turns: the run is the loop at fuel 20 (second conjunct), the number of
provider calls the loop makes never exceeds its fuel (third conjunct), the loop
terminates normally as soon as a completion contains no tool call, appending the
assistant message and returning the preferred narrative text (fifth conjunct), and on
exhausted fuel it terminates forcibly, returning the best narrative text seen so far
or the generic did-not-finish message (fourth conjunct). -/
theorem agentRun_iteration_spec (provider : Provider) (tools : List Tool) (ctx : ToolContext) :
    MAX_TOOL_ITERATIONS = 20 ∧
    (∀ workingDirectory planMode messages userMessage,
      Agent.run provider tools workingDirectory planMode messages userMessage =
        runLoop provider tools ⟨workingDirectory⟩ 20
          (addSystemMessage messages (buildSystemPrompt tools workingDirectory planMode) ++
            [⟨Role.user, userMessage⟩]) []) ∧
    (∀ fuel msgs fr, runLoopCalls provider tools ctx fuel msgs fr ≤ fuel) ∧
    (∀ msgs fr, runLoop provider tools ctx 0 msgs fr =
      Except.ok (msgs,
        if fr.isEmpty then
          "I was unable to complete the task within the maximum number of steps.".toList
        else fr)) ∧
    (∀ fuel msgs fr resp, provider msgs = Except.ok resp →
      (parseToolCalls resp.content).toolCalls.isEmpty = true →
      runLoop provider tools ctx (fuel + 1) msgs fr =
        Except.ok (msgs ++ [⟨Role.assistant, resp.content⟩],
          if (if (parseToolCalls resp.content).text.isEmpty then fr
              else (parseToolCalls resp.content).text).isEmpty
          then resp.content
          else if (parseToolCalls resp.content).text.isEmpty then fr
            else (parseToolCalls resp.content).text)) := by
  refine ⟨rfl, ?_, ?_, ?_, ?_⟩
  · intro workingDirectory planMode messages userMessage
    rfl
  · intro fuel
    induction fuel with
    | zero => intro msgs fr; exact le_refl 0
    | succ f ih =>
      intro msgs fr
      cases hp : provider msgs with
      | error e => simp only [runLoopCalls, hp]; omega
      | ok resp =>
        simp only [runLoopCalls, hp]
        by_cases hne : (parseToolCalls resp.content).toolCalls.isEmpty = true
        · simp only [hne, if_true]
          omega
        · have hne' : (parseToolCalls resp.content).toolCalls.isEmpty = false := by
            cases hval : (parseToolCalls resp.content).toolCalls.isEmpty
            · rfl
            · exact absurd hval hne
          simp only [hne', Bool.false_eq_true, if_false]
          have := ih ((msgs ++ [⟨Role.assistant, resp.content⟩]) ++
            [⟨Role.user, joinBlocks ((parseToolCalls resp.content).toolCalls.map
              (dispatchToolCall tools ctx))⟩])
            (if (parseToolCalls resp.content).text.isEmpty then fr
              else (parseToolCalls resp.content).text)
          omega
  · intro msgs fr
    rfl
  · intro fuel msgs fr resp h hempty
    simp only [runLoop, h, hempty]
    rfl

/-- A provider oracle that replies with plain narrative text (no tool call). -/
def provChat : Provider := fun _ => Except.ok ⟨"All done here.".toList, none⟩

/-- Witness for C9: at fuel 0 the loop returns the did-not-finish message; with a
narrative-only completion it terminates normally on the first turn; and the call count
of a 20-fuel loop is bounded by 20. -/
theorem agentRun_iteration_spec_witness :
    runLoop provChat [] ⟨"/repo".toList⟩ 0 [] [] =
      Except.ok ([],
        "I was unable to complete the task within the maximum number of steps.".toList) ∧
    runLoop provChat [] ⟨"/repo".toList⟩ 1 [] [] =
      Except.ok ([⟨Role.assistant, "All done here.".toList⟩], "All done here.".toList) ∧
    runLoopCalls provChat [] ⟨"/repo".toList⟩ 20 [] [] ≤ 20 := by
  refine ⟨?_, ?_, ?_⟩
  · exact (agentRun_iteration_spec provChat [] ⟨"/repo".toList⟩).2.2.2.1 [] []
  · have h := (agentRun_iteration_spec provChat [] ⟨"/repo".toList⟩).2.2.2.2 0 [] []
      ⟨"All done here.".toList, none⟩ rfl (by rfl)
    rw [h]
    rfl
  · exact (agentRun_iteration_spec provChat [] ⟨"/repo".toList⟩).2.2.1 20 [] []

/-! ## Plan persistence (plan-manager.ts, savePlan / loadPlan) -/

def decodeJString : Json → Option String
  | Json.str s => some (String.mk s)
  | _ => none

def decodeJNat : Json → Option Nat
  | Json.num lit =>
    if lit ≠ [] ∧ lit.all Char.isDigit then
      some (lit.foldl (fun acc c => acc * 10 + (c.toNat - 48)) 0)
    else none
  | _ => none

def decodeTaskStatus : Json → Option TaskStatus
  | Json.str s =>
    if s == "pending".toList then some TaskStatus.pending
    else if s == "in_progress".toList then some TaskStatus.in_progress
    else if s == "completed".toList then some TaskStatus.completed
    else if s == "failed".toList then some TaskStatus.failed
    else if s == "skipped".toList then some TaskStatus.skipped
    else none
  | _ => none

def decodePlanStatus : Json → Option PlanStatus
  | Json.str s =>
    if s == "draft".toList then some PlanStatus.draft
    else if s == "approved".toList then some PlanStatus.approved
    else if s == "in_progress".toList then some PlanStatus.in_progress
    else if s == "completed".toList then some PlanStatus.completed
    else if s == "failed".toList then some PlanStatus.failed
    else none
  | _ => none

def decodeStrList : Json → Option (List String)
  | Json.arr es => es.mapM decodeJString
  | _ => none

def optField (fields : List (List Char × Json)) (key : List Char) : Option String :=
  match objLookupLast fields key with
  | some (Json.str s) => some (String.mk s)
  | _ => none

def decodeTask : Json → Option Task
  | Json.obj fields => do
    let id ← objLookupLast fields "id".toList >>= decodeJString
    let title ← objLookupLast fields "title".toList >>= decodeJString
    let description ← objLookupLast fields "description".toList >>= decodeJString
    let status ← objLookupLast fields "status".toList >>= decodeTaskStatus
    let dependencies ← objLookupLast fields "dependencies".toList >>= decodeStrList
    let attempts ← objLookupLast fields "attempts".toList >>= decodeJNat
    let maxAttempts ← objLookupLast fields "maxAttempts".toList >>= decodeJNat
    some (Task.mk id title description status dependencies
      (optField fields "verifyCommand".toList) attempts maxAttempts
      (optField fields "error".toList))
  | _ => none

def decodeVerifyCommands : Json → Option VerifyCommands
  | Json.obj fields =>
    some (VerifyCommands.mk (optField fields "build".toList)
      (optField fields "test".toList) (optField fields "lint".toList))
  | _ => none

/-- Modelled from the spec: loadPlan assigns `JSON.parse(content)` to the typed plan
slot unchecked (`this.plan = JSON.parse(content)`), relying on the snapshot having been
written by `savePlan` (§6: the snapshot's shape is the full Plan entity with stable
field names); the typed slot of this embedding therefore decodes that shape, and all
claims about `loadPlan` failure behaviour are independent of the decoder. -/
def decodePlan (v : Json) : Option Plan :=
  match v with
  | Json.obj fields => do
    let id ← objLookupLast fields "id".toList >>= decodeJString
    let goal ← objLookupLast fields "goal".toList >>= decodeJString
    let createdAt ← objLookupLast fields "createdAt".toList >>= decodeJString
    let status ← objLookupLast fields "status".toList >>= decodePlanStatus
    let summary ← objLookupLast fields "summary".toList >>= decodeJString
    let tasks ← objLookupLast fields "tasks".toList >>=
      (fun j => match j with | Json.arr es => es.mapM decodeTask | _ => none)
    let currentTaskIndex ← objLookupLast fields "currentTaskIndex".toList >>= decodeJNat
    let verifyCommands ← objLookupLast fields "verifyCommands".toList >>= decodeVerifyCommands
    let workingDirectory ← objLookupLast fields "workingDirectory".toList >>= decodeJString
    some (Plan.mk id goal createdAt status summary tasks currentTaskIndex
      verifyCommands workingDirectory)
  | _ => none

/-- The snapshot file name used by savePlan/loadPlan: `plan-<id>.json` (under the fixed
per-project `.opencoder` directory, which the filesystem oracle stands for). -/
def planPathFor (planId : String) : String := "plan-" ++ planId ++ ".json"

/-- `loadPlan` from plan-manager.ts: read the snapshot file and `JSON.parse` it inside
a try/catch; a missing file or a parse error is caught and returns null with the
in-memory plan untouched; a successful parse replaces the in-memory plan and returns
it.  `fs` is the filesystem oracle (file name to content). -/
def PlanManager.loadPlan (m : PlanManager) (fs : String → Option String) (planId : String) :
    Option Plan × PlanManager :=
  match fs (planPathFor planId) with
  | none => (none, m)
  | some content =>
    match jsonParse content.toList with
    | none => (none, m)
    | some v => (decodePlan v, { m with plan := decodePlan v })

/-- C10: `loadPlan` is atomic on failure: when the snapshot file for the id is missing,
or its content is not valid JSON, `loadPlan` returns null and the manager's current
plan is unchanged; and whenever the call changes the manager at all, the file existed,
its content parsed as JSON, and the in-memory plan was replaced with (and the call
returned) the deserialized value. -/
theorem loadPlan_spec (m : PlanManager) (fs : String → Option String) (planId : String) :
    (fs (planPathFor planId) = none → m.loadPlan fs planId = (none, m)) ∧
    (∀ content, fs (planPathFor planId) = some content → jsonParse content.toList = none →
      m.loadPlan fs planId = (none, m)) ∧
    (∀ r m', m.loadPlan fs planId = (r, m') → m' ≠ m →
      ∃ content v, fs (planPathFor planId) = some content ∧
        jsonParse content.toList = some v ∧
        r = decodePlan v ∧ m' = { m with plan := decodePlan v }) := by
  refine ⟨?_, ?_, ?_⟩
  · intro h
    simp only [PlanManager.loadPlan, h]
  · intro content h1 h2
    simp only [PlanManager.loadPlan, h1, h2]
  · intro r m' h hne
    cases hfs : fs (planPathFor planId) with
    | none =>
      simp only [PlanManager.loadPlan, hfs] at h
      injection h with h1 h2
      exact absurd h2.symm hne
    | some content =>
      simp only [PlanManager.loadPlan, hfs] at h
      cases hj : jsonParse content.toList with
      | none =>
        simp only [hj] at h
        injection h with h1 h2
        exact absurd h2.symm hne
      | some v =>
        simp only [hj] at h
        injection h with h1 h2
        exact ⟨content, v, rfl, hj, h1.symm, h2.symm⟩

/-- A filesystem oracle with one snapshot holding invalid JSON. -/
def fsBad : String → Option String :=
  fun p => if p = "plan-ab12cd34.json" then some "not json at all" else none

/-- Witness for C10: a missing file and an invalid-JSON file both leave the manager
unchanged and return null. -/
theorem loadPlan_spec_witness :
    samplePM.loadPlan (fun _ => none) "ab12cd34" = (none, samplePM) ∧
    samplePM.loadPlan fsBad "ab12cd34" = (none, samplePM) := by
  refine ⟨?_, ?_⟩
  · exact (loadPlan_spec samplePM (fun _ => none) "ab12cd34").1 rfl
  · exact (loadPlan_spec samplePM fsBad "ab12cd34").2.1 "not json at all" (by decide) rfl

end OpenCoder
